import Mathlib

/-!
Holmes-Toolbox, `push_to_holmes.go`: a shallow embedding of the uploader.
Everything the program reaches outside its own source (file system, BSON decoder, HTTP, libmagic, the clock) is a field of
`World`. The package variables are the record `Globals`. Every function of the
source becomes a function from `World` and `Globals` to a result, the new
`Globals` and the list of external effects it performed, in program order.
The two synchronisation objects, the wait group `wg` and the channel `c`,
are not stored in `Globals`: the sequential code only emits the events
`wgAdd`, `send`, `wgDone`, and the interleaving of producers and workers is the
step system `Sys` further down. A second step system, `CSys`, interleaves the
calls of `copySample` of several workers around the shared variable `client`.
-/

namespace Holmes

deriving instance DecidableEq for Except

/-! ## Data -/

/-- One byte. -/
abbrev Byte := Fin 256

/-- A byte slice. -/
abbrev Bytes := List Byte

/-- An `io.Reader` as the program uses it (read to the end exactly once): the
bytes it delivers, and the error that ends the stream, `none` for a clean EOF. -/
structure Reader where
  data : Bytes
  err : Option String
  deriving DecidableEq, Repr

/-- The one field of `http.Transport` the program sets:
`TLSClientConfig.InsecureSkipVerify`; `false` for the zero `Transport`. -/
structure Transport where
  InsecureSkipVerify : Bool := false
  deriving DecidableEq, Repr

/-- An `http.Client`. -/
structure Client where
  transport : Transport
  deriving DecidableEq, Repr

/-- An `http.Response`: status code and body stream. -/
structure Response where
  StatusCode : Int
  Body : Reader
  deriving DecidableEq, Repr

/-- The struct `critsSample`, lines 25-28: the document identifier (a
`bson.ObjectId`, a string of bytes) and the MD5 text. -/
structure critsSample where
  Id : Bytes
  MD5 : String
  deriving DecidableEq, Repr

/-- One part of a multipart body: the `name` parameter of its
Content-Disposition header and, for a file part, the `filename` parameter, both
as the text written between the double quotes of the header; then the bytes
written into the part. -/
structure Part where
  fieldname : String
  filename : Option String
  content : Bytes
  deriving DecidableEq, Repr

/-- A `multipart.Writer` together with the `bytes.Buffer` it writes into, kept at
the level of parts: the boundary, the parts written so far (the last one is the
open part) and whether the closing boundary has been written. -/
structure Writer where
  boundary : String
  parts : List Part
  closed : Bool
  deriving DecidableEq, Repr

/-- An `http.Request` as `buildRequest` fills it. -/
structure Request where
  method : String
  url : String
  body : Writer
  header : List (String × String)
  deriving DecidableEq, Repr

/-- The variables of the `var ( ... )` block, lines 30-45, without `wg` and `c`. -/
structure Globals where
  client : Client
  critsFileServer : String
  holmesStorage : String
  directory : String
  comment : String
  userid : String
  source : String
  mimetypePattern : String
  topLevel : Bool
  recursive : Bool
  insecure : Bool
  numWorkers : Int
  deriving DecidableEq, Repr

/-- What the program does to the outside, one constructor per call site. -/
inductive Event
  | osOpen (path : String)
  | bsonUnmarshal (data : String)
  | httpGet (cl : Client) (url : String)
  | respClose (resp : Response)
  | httpDo (cl : Client) (req : Request)
  | typeByFile (path : String)
  | wgAdd (n : Int)
  | send (sample : String)
  | wgDone
  | wgWait
  | goWorker
  | log (msg : String)
  | logInt (n : Int)
  | logBytes (b : Bytes)
  deriving DecidableEq, Repr

/-- File kinds that `os.FileInfo.Mode` tells apart, as far as needed here. -/
inductive FileKind
  | regular
  | symlink
  | other
  deriving DecidableEq, Repr

/-- An `os.FileInfo`: a directory, or a non-directory of some kind. -/
inductive FileInfo
  | dir
  | nondir (kind : FileKind)
  deriving DecidableEq, Repr

/-- The `os.FileInfo.IsDir` method. -/
def FileInfo.IsDir : FileInfo → Bool
  | .dir => true
  | .nondir _ => false

/-- Whether `Mode().IsRegular()` holds. -/
def FileInfo.IsRegular : FileInfo → Bool
  | .nondir .regular => true
  | _ => false

mutual
/-- A file-system entry for which `Lstat` succeeded: a non-directory, or a
directory with the outcome of `readDirNames` (an error, or its entries). -/
inductive Entry
  | file (kind : FileKind)
  | dir (readErr : Option String) (kids : Entries)
/-- The names `readDirNames` returns for a directory, in its (sorted) order,
each with what `Lstat` finds there: an entry, or an error. -/
inductive Entries
  | nil
  | cons (name : String) (e : Entry) (rest : Entries)
  | consErr (name : String) (lstatErr : String) (rest : Entries)
end

/-- The `os.FileInfo` that `Lstat` returns for an entry. -/
def Entry.info : Entry → FileInfo
  | .file k => .nondir k
  | .dir _ _ => .dir

/-- The environment of one run. `osOpen p` is `os.Open(p)` followed by reading
the handle; `bsonUnmarshal s` is `cId` after
`bson.Unmarshal([]byte(s), cId)`; `lstatRoot p` is `os.Lstat` on the root of a
walk together with the tree below it; `now` is
`time.Now().Format(time.RFC3339)`; `boundary` is the random boundary of
`multipart.NewWriter`; `urlParse` is `url.Parse` inside `http.NewRequest`. -/
structure World where
  osOpen : String → Except String Reader
  bsonUnmarshal : String → Except String critsSample
  httpGet : Client → String → Except String Response
  httpDo : Client → Request → Except String Response
  urlParse : String → Except String String
  typeByFile : String → Except String String
  readLines : String → Except String (List String)
  filepathAbs : String → Except String String
  lstatRoot : String → Except String Entry
  now : String
  boundary : String

/-- A value or a run-time panic. -/
inductive Ret (α : Type)
  | val (a : α)
  | panic (msg : String)
  deriving DecidableEq, Repr

/-- Error values that `filepath.Walk` tells apart. -/
inductive GoError
  | skipDir
  | skipAll
  | other (msg : String)
  deriving DecidableEq, Repr

/-- The result of running a piece of the program: what it returns, the
package variables afterwards, and the effects in order. -/
structure Eff (α : Type) where
  ret : α
  g : Globals
  trace : List Event

/-- How a call ends: it returns, `log.Fatal` exits the process, it panics, or it
blocks for ever on the channel. -/
inductive Outcome
  | returned
  | fatal (msg : String)
  | panicked (msg : String)
  | blocked
  deriving DecidableEq, Repr

/-! ## Library functions -/

/-- A lowercase hex digit. -/
def hexDigit (n : Nat) : Char :=
  if n < 10 then Char.ofNat (48 + n) else Char.ofNat (87 + n)

/-- The method `bson.ObjectId.Hex`: `hex.EncodeToString` of the identifier. -/
def Hex (id : Bytes) : String :=
  String.mk (id.flatMap fun b => [hexDigit (b.val / 16), hexDigit (b.val % 16)])

/-- The UTF-8 bytes of one character. -/
def utf8Char (ch : Char) : List Nat :=
  let n := ch.toNat
  if n < 128 then [n]
  else if n < 2048 then [192 + n / 64, 128 + n % 64]
  else if n < 65536 then [224 + n / 4096, 128 + n / 64 % 64, 128 + n % 64]
  else [240 + n / 262144, 128 + n / 4096 % 64, 128 + n / 64 % 64, 128 + n % 64]

/-- The conversion `[]byte(s)`. -/
def bytesOf (s : String) : Bytes :=
  (s.data.flatMap utf8Char).map fun n => Fin.ofNat n

/-- The function `strings.Contains`: `substr` occurs in `s`. -/
def stringsContains (s substr : String) : Bool :=
  s.data.tails.any fun t => substr.data.isPrefixOf t

/-- Drop the characters at the end of a list that satisfy `p`. -/
def dropTrailing (p : Char → Bool) (l : List Char) : List Char :=
  (l.reverse.dropWhile p).reverse

/-- The function `filepath.Base` on Unix: the last element of the path. -/
def filepathBase (path : String) : String :=
  if path = "" then "."
  else
    let stripped := dropTrailing (fun ch => ch == '/') path.data
    let last := (stripped.reverse.takeWhile fun ch => ch != '/').reverse
    if last = [] then "/" else String.mk last

/-- The function `filepath.Join` for a clean directory path and one name. -/
def filepathJoin (path name : String) : String :=
  if path.data.getLast? = some '/' then path ++ name else path ++ "/" ++ name

/-- What `escapeQuotes` of `mime/multipart` writes for one character: a
backslash before a backslash or a double quote, `%0D` for a carriage return,
`%0A` for a line feed, the character itself otherwise. -/
def escapeChar (ch : Char) : List Char :=
  if ch.toNat = 92 then [ch, ch]
  else if ch.toNat = 34 then [Char.ofNat 92, ch]
  else if ch.toNat = 13 then "%0D".data
  else if ch.toNat = 10 then "%0A".data
  else [ch]

/-- The function `escapeQuotes` of `mime/multipart`, which `CreateFormFile` and
`CreateFormField` apply to the field name and the file name before they write
them into the part header. -/
def escapeQuotes (s : String) : String :=
  String.mk (s.data.flatMap escapeChar)

/-- The function `multipart.NewWriter` on an empty buffer. -/
def NewWriter (boundary : String) : Writer :=
  { boundary := boundary, parts := [], closed := false }

/-- The method `Writer.CreateFormFile`: closes the open part and starts a file
part whose header carries the escaped field name and file name. Writing the
part header into a `bytes.Buffer` cannot fail. -/
def Writer.CreateFormFile (wr : Writer) (fieldname filename : String) : Except String Writer :=
  .ok { wr with parts := wr.parts ++
    [{ fieldname := escapeQuotes fieldname, filename := some (escapeQuotes filename),
       content := [] }] }

/-- The call `io.Copy(part, r)` for the part that is open in `wr`: every byte
the reader delivers is appended to it; the error is the reader's. -/
def ioCopy (wr : Writer) (r : Reader) : Writer × Option String :=
  match wr.parts.reverse with
  | [] => (wr, r.err)
  | p :: before =>
    ({ wr with parts := before.reverse ++ [{ p with content := p.content ++ r.data }] }, r.err)

/-- The method `Writer.WriteField`: `CreateFormField` starts a part without
filename under the escaped field name, and `value` is written into it. -/
def Writer.WriteField (wr : Writer) (fieldname value : String) : Except String Writer :=
  .ok { wr with parts := wr.parts ++
    [{ fieldname := escapeQuotes fieldname, filename := none, content := bytesOf value }] }

/-- The method `Writer.Close`: writes the closing boundary. -/
def Writer.Close (wr : Writer) : Except String Writer :=
  .ok { wr with closed := true }

/-- The method `Writer.FormDataContentType`. -/
def Writer.FormDataContentType (wr : Writer) : String :=
  "multipart/form-data; boundary=" ++ wr.boundary

/-- The function `http.NewRequest`: fails when the URL does not parse (the
method given here, PUT, is always valid). -/
def httpNewRequest (w : World) (method url : String) (body : Writer) : Except String Request :=
  match w.urlParse url with
  | .error e => .error e
  | .ok _ => .ok { method := method, url := url, body := body, header := [] }

/-- The method `Header.Add`. -/
def Request.headerAdd (r : Request) (key value : String) : Request :=
  { r with header := r.header ++ [(key, value)] }

/-! ## The program -/

/-- The function `init`, lines 47-58: the client with a zero `Transport`; every
other package variable has its zero value. -/
def init : Globals :=
  { client := { transport := {} }
    critsFileServer := ""
    holmesStorage := ""
    directory := ""
    comment := ""
    userid := ""
    source := ""
    mimetypePattern := ""
    topLevel := false
    recursive := false
    insecure := false
    numWorkers := 0 }

/-- The loop `for key, val := range params`, lines 247-252, over the entries of
the map in the order the loop visits them. -/
def writeFields (wr : Writer) : List (String × String) → Except String Writer
  | [] => .ok wr
  | (key, val) :: rest =>
    match wr.WriteField key val with
    | .error e => .error e
    | .ok wr1 => writeFields wr1 rest

/-- The function `SafeResponseClose`, lines 269-276: nothing for a nil response,
otherwise the body is drained and closed. -/
def SafeResponseClose (r : Option Response) : List Event :=
  match r with
  | none => []
  | some resp => [.respClose resp]

/-- The first half of `buildRequest`, lines 205-232: the reader `r`, or the
error returned before line 234; then the effects so far; then the deferred
`SafeResponseClose`, which runs when `buildRequest` returns. -/
def resolveReader (w : World) (g : Globals) (hash : String) :
    Except String Reader × List Event × List Event :=
  match w.osOpen hash with
  | .ok f => (.ok f, [.osOpen hash], [])
  | .error _ =>
    match w.bsonUnmarshal hash with
    | .error e => (.error e, [.osOpen hash, .bsonUnmarshal hash], [])
    | .ok cId =>
      let rawId := Hex cId.Id
      let url := g.critsFileServer ++ "/" ++ rawId
      match w.httpGet g.client url with
      | .error e => (.error e, [.osOpen hash, .bsonUnmarshal hash, .httpGet g.client url], [])
      | .ok resp =>
        if resp.StatusCode ≠ 200 then
          (.error "Couldn't download file",
            [.osOpen hash, .bsonUnmarshal hash, .httpGet g.client url],
            SafeResponseClose (some resp))
        else
          (.ok resp.Body,
            [.osOpen hash, .bsonUnmarshal hash, .httpGet g.client url],
            SafeResponseClose (some resp))

/-- The second half of `buildRequest`, lines 234-266, from the reader `r`.
`params` is the Go map given by its entries in the order `range` visits them
(Go leaves that order open; the keys of a map are distinct). -/
def buildPut (w : World) (uri : String) (params : List (String × String)) (hash : String)
    (r : Reader) : Except String Request :=
  let writer := NewWriter w.boundary
  match writer.CreateFormFile "sample" hash with
  | .error e => .error e
  | .ok writer1 =>
    match ioCopy writer1 r with
    | (_, some e) => .error e
    | (writer2, none) =>
      match writeFields writer2 params with
      | .error e => .error e
      | .ok writer3 =>
        match writer3.Close with
        | .error e => .error e
        | .ok body =>
          match httpNewRequest w "PUT" uri body with
          | .error e => .error e
          | .ok request => .ok (request.headerAdd "Content-Type" body.FormDataContentType)

/-- The function `buildRequest`, lines 204-267: its two halves in sequence,
with the effects in the order they happen. -/
def buildRequest (w : World) (g : Globals) (uri : String) (params : List (String × String))
    (hash : String) : Except String Request × List Event :=
  match resolveReader w g hash with
  | (.error e, t, deferred) => (.error e, t ++ deferred)
  | (.ok r, t, deferred) => (buildPut w uri params hash r, t ++ deferred)

/-- The function `copySample`, lines 160-202. `log.Fatal` logs and exits the
process: nothing after it runs. -/
def copySample (w : World) (g : Globals) (name : String) : Eff Outcome :=
  let parameters : List (String × String) :=
    [("user_id", g.userid), ("source", g.source), ("name", filepathBase name),
      ("date", w.now), ("comment", g.comment)]
  match buildRequest w g (g.holmesStorage ++ "/samples/") parameters name with
  | (.error e, t) =>
    { ret := .fatal ("ERROR: " ++ e), g := g, trace := t ++ [.log ("ERROR: " ++ e)] }
  | (.ok request, t) =>
    let tr : Transport := if g.insecure then { InsecureSkipVerify := true } else {}
    let g1 : Globals := { g with client := { transport := tr } }
    match w.httpDo g1.client request with
    | .error e =>
      { ret := .fatal ("ERROR: " ++ e), g := g1,
        trace := t ++ [.httpDo g1.client request, .log ("ERROR: " ++ e)] }
    | .ok resp =>
      match resp.Body.err with
      | some e =>
        { ret := .fatal ("ERROR: " ++ e), g := g1,
          trace := t ++ [.httpDo g1.client request, .log ("ERROR: " ++ e)] }
      | none =>
        { ret := .returned, g := g1,
          trace := t ++ [.httpDo g1.client request, .log ("Uploaded " ++ name),
            .logInt resp.StatusCode, .logBytes resp.Body.data,
            .log "-------------------------------------------"] }

/-- The function `worker`, lines 60-67, for the samples this worker receives
from `c`, in order; with nothing left to receive it blocks on the channel. -/
def worker (w : World) (g : Globals) : List String → Eff Outcome
  | [] => { ret := .blocked, g := g, trace := [] }
  | sample :: rest =>
    let r := copySample w g sample
    match r.ret with
    | .returned =>
      let r2 := worker w r.g rest
      { ret := r2.ret, g := r2.g, trace := r.trace ++ [.wgDone] ++ r2.trace }
    | _ => r

/-- The function `walkFn`, lines 131-158. A nil `fi` makes `fi.IsDir()` panic.
The parameter `err` is never read: line 144 overwrites it. -/
def walkFn (w : World) (g : Globals) (path : String) (fi : Option FileInfo)
    (_err : Option GoError) : Eff (Ret (Option GoError)) :=
  match fi with
  | none =>
    { ret := .panic "invalid memory address or nil pointer dereference", g := g, trace := [] }
  | some info =>
    if info.IsDir then
      if g.recursive then
        { ret := .val none, g := g, trace := [] }
      else if g.topLevel then
        { ret := .val none, g := { g with topLevel := false }, trace := [] }
      else
        { ret := .val (some .skipDir), g := g, trace := [] }
    else
      match w.typeByFile path with
      | .error e =>
        { ret := .val none, g := g,
          trace := [.typeByFile path, .log ("mimetype error (skipping " ++ path ++ "): " ++ e)] }
      | .ok mimetype =>
        if stringsContains mimetype g.mimetypePattern then
          { ret := .val none, g := g,
            trace := [.typeByFile path, .log ("Adding " ++ path ++ " (" ++ mimetype ++ ")"),
              .wgAdd 1, .send path] }
        else
          { ret := .val none, g := g,
            trace := [.typeByFile path, .log ("Skipping " ++ path ++ " (" ++ mimetype ++ ")")] }

/-- The type `filepath.WalkFunc`, with the package variables threaded through. -/
abbrev WalkFunc := Globals → String → Option FileInfo → Option GoError → Eff (Ret (Option GoError))

/-- Run `second` after `first`, from the variables `first` left. -/
def Eff.andThen {α : Type} (first : Eff α) (second : Globals → Eff α) : Eff α :=
  let r := second first.g
  { ret := r.ret, g := r.g, trace := first.trace ++ r.trace }

mutual
/-- The function `walk` of `path/filepath` (Go 1.16 and later): the callback is
called once for a directory, after `readDirNames`, with its error. -/
def walk (fn : WalkFunc) (g : Globals) (path : String) : Entry → Eff (Ret (Option GoError))
  | .file k => fn g path (some (.nondir k)) none
  | .dir readErr kids =>
    let r1 := fn g path (some .dir) (readErr.map .other)
    match r1.ret with
    | .panic _ => r1
    | .val err1 =>
      if readErr.isSome || err1.isSome then r1
      else r1.andThen fun g1 => walkEntries fn g1 path kids
/-- The loop `for _, name := range names` of `walk`. -/
def walkEntries (fn : WalkFunc) (g : Globals) (path : String) :
    Entries → Eff (Ret (Option GoError))
  | .nil => { ret := .val none, g := g, trace := [] }
  | .consErr name lstatErr rest =>
    let r := fn g (filepathJoin path name) none (some (.other lstatErr))
    match r.ret with
    | .panic _ => r
    | .val none => r.andThen fun g1 => walkEntries fn g1 path rest
    | .val (some e) =>
      if e ≠ .skipDir then r else r.andThen fun g1 => walkEntries fn g1 path rest
  | .cons name e rest =>
    let r := walk fn g (filepathJoin path name) e
    match r.ret with
    | .panic _ => r
    | .val none => r.andThen fun g1 => walkEntries fn g1 path rest
    | .val (some err) =>
      if !e.info.IsDir || err ≠ .skipDir then r
      else r.andThen fun g1 => walkEntries fn g1 path rest
end

/-- The function `filepath.Walk`: `Lstat` on the root, then `walk`; `SkipDir`
and `SkipAll` at the top become nil. -/
def Walk (w : World) (fn : WalkFunc) (g : Globals) (root : String) : Eff (Ret (Option GoError)) :=
  let r :=
    match w.lstatRoot root with
    | .error e => fn g root none (some (.other e))
    | .ok entry => walk fn g root entry
  match r.ret with
  | .val (some .skipDir) => { r with ret := .val none }
  | .val (some .skipAll) => { r with ret := .val none }
  | _ => r

/-- The text `err.Error()` of an error value. -/
def GoError.Error : GoError → String
  | .skipDir => "skip this directory"
  | .skipAll => "skip everything and stop the walk"
  | .other m => m

/-- The command line: one field per flag of lines 73-84, with its default. -/
structure Flags where
  file : String := ""
  cfs : String := ""
  storage : String := ""
  mime : String := ""
  dir : String := ""
  comment : String := ""
  src : String := ""
  uid : String := "-1"
  workers : Int := 1
  recursive : Bool := false
  insecure : Bool := false
  deriving DecidableEq, Repr

/-- The effects of the loop of lines 105-109 over the scanned lines. -/
def dispatchLines : List String → List Event
  | [] => []
  | line :: rest => [.wgAdd 1, .send line] ++ dispatchLines rest

/-- The function `main`, lines 69-129, as the main goroutine runs it: the
effects in program order, each send being taken by some worker. -/
def main (w : World) (g0 : Globals) (args : Flags) : Eff Outcome :=
  let g : Globals :=
    { g0 with
      critsFileServer := args.cfs
      holmesStorage := args.storage
      mimetypePattern := args.mime
      directory := args.dir
      comment := args.comment
      source := args.src
      userid := args.uid
      numWorkers := args.workers
      recursive := args.recursive
      insecure := args.insecure }
  let t0 : List Event := [.log "Running..."] ++ List.replicate g.numWorkers.toNat .goWorker
  let listed : Except String (List Event) :=
    if args.file ≠ "" then
      match w.readLines args.file with
      | .error e => .error e
      | .ok lines => .ok (dispatchLines lines)
    else .ok []
  match listed with
  | .error e =>
    { ret := .returned, g := g,
      trace := t0 ++ [.log ("Couln't open file containing sample list! " ++ e)] }
  | .ok t1 =>
    if g.directory ≠ "" then
      match w.filepathAbs g.directory with
      | .error e => { ret := .returned, g := g, trace := t0 ++ t1 ++ [.log ("path error: " ++ e)] }
      | .ok fullPath =>
        let r := Walk w (walkFn w) { g with topLevel := true } fullPath
        match r.ret with
        | .panic m => { ret := .panicked m, g := r.g, trace := t0 ++ t1 ++ r.trace }
        | .val (some err) =>
          { ret := .returned, g := r.g,
            trace := t0 ++ t1 ++ r.trace ++ [.log ("walk error: " ++ err.Error)] }
        | .val none => { ret := .returned, g := r.g, trace := t0 ++ t1 ++ r.trace ++ [.wgWait] }
    else
      { ret := .returned, g := g, trace := t0 ++ t1 ++ [.wgWait] }

/-! ## Producers and workers as a step system -/

/-- Where the main goroutine stands in a dispatch: before `wg.Add(1)`, or
after it with the send `c <- x` not yet taken (lines 106-107 and 151-152). -/
inductive PState
  | ready
  | added (x : String)
  deriving DecidableEq, Repr

/-- Where a worker stands in its loop, lines 61-66: at the receive, holding a
sample before `copySample`, or after `copySample` before `wg.Done()`. -/
inductive WState
  | recv
  | got (sample : String)
  | copied (sample : String)
  deriving DecidableEq, Repr

/-- A state of the running system. `wg` is the counter of the wait group, `todo`
the references the producers have still to dispatch, `g` the package
variables. `nAdded`, `nPushed` and `nDone` count the `wg.Add(1)`, the completed
sends and the `wg.Done()` so far; they are history, nothing reads them. -/
structure Sys where
  wg : Int
  todo : List String
  prod : PState
  workers : List WState
  g : Globals
  exited : Bool
  panicked : Bool
  nAdded : Nat
  nPushed : Nat
  nDone : Nat
  deriving DecidableEq, Repr

/-- One atomic step: the producer increments the counter; the channel hands
the pending sample to worker `i`; worker `i` runs `copySample`; worker `i`
calls `wg.Done()`; `wg.Wait()` returns and the process ends. -/
inductive Action
  | add
  | handoff (i : Nat)
  | copy (i : Nat)
  | done (i : Nat)
  | wait
  deriving DecidableEq, Repr

/-- The state after `go worker()` has been run `n` times. -/
def Sys.start (g : Globals) (n : Nat) (todo : List String) : Sys :=
  { wg := 0, todo := todo, prod := .ready, workers := List.replicate n .recv, g := g,
    exited := false, panicked := false, nAdded := 0, nPushed := 0, nDone := 0 }

/-- The step function; `none` when the action is not enabled. A `wg.Done()`
that would make the counter negative panics, as `sync.WaitGroup` does. -/
def step (w : World) (s : Sys) (a : Action) : Option Sys :=
  if s.exited || s.panicked then none
  else
    match a with
    | .add =>
      match s.prod, s.todo with
      | .ready, x :: rest =>
        some { s with wg := s.wg + 1, prod := .added x, todo := rest, nAdded := s.nAdded + 1 }
      | _, _ => none
    | .handoff i =>
      match s.prod, s.workers[i]? with
      | .added x, some .recv =>
        some { s with prod := .ready, workers := s.workers.set i (.got x), nPushed := s.nPushed + 1 }
      | _, _ => none
    | .copy i =>
      match s.workers[i]? with
      | some (.got x) =>
        let r := copySample w s.g x
        match r.ret with
        | .returned => some { s with g := r.g, workers := s.workers.set i (.copied x) }
        | _ => some { s with g := r.g, exited := true }
      | _ => none
    | .done i =>
      match s.workers[i]? with
      | some (.copied _) =>
        if s.wg - 1 < 0 then some { s with panicked := true }
        else some { s with wg := s.wg - 1, workers := s.workers.set i .recv, nDone := s.nDone + 1 }
      | _ => none
    | .wait =>
      match s.prod, s.todo with
      | .ready, [] => if s.wg = 0 then some { s with exited := true } else none
      | _, _ => none

/-- Run a schedule, a list of actions, from a state. -/
def run (w : World) (s : Sys) : List Action → Option Sys
  | [] => some s
  | a :: rest =>
    match step w s a with
    | none => none
    | some s1 => run w s1 rest

/-- The number of workers that hold a sample: pushed and not yet completed. -/
def busy : List WState → Nat
  | [] => 0
  | .recv :: rest => busy rest
  | _ :: rest => busy rest + 1

/-- The references the producer has in hand: one between its `wg.Add(1)` and the
completion of its send, none otherwise. -/
def PState.pending : PState → Nat
  | .ready => 0
  | .added _ => 1

/-! ## Views of a trace and of a tree, used to state the properties -/

/-- The paths handed to `magicmime.TypeByFile`, in order: the files classified. -/
def classified : List Event → List String
  | [] => []
  | .typeByFile p :: rest => p :: classified rest
  | _ :: rest => classified rest

/-- The samples sent on the channel, in order. -/
def sent : List Event → List String
  | [] => []
  | .send x :: rest => x :: sent rest
  | _ :: rest => sent rest

/-- The events on the wait group and the channel, in order. -/
def syncEvents : List Event → List Event
  | [] => []
  | .wgAdd n :: rest => .wgAdd n :: syncEvents rest
  | .send x :: rest => .send x :: syncEvents rest
  | _ :: rest => syncEvents rest

/-- The URLs and clients of the GET requests to the file server, in order. -/
def gets : List Event → List (Client × String)
  | [] => []
  | .httpGet cl url :: rest => (cl, url) :: gets rest
  | _ :: rest => gets rest

/-- The requests handed to `client.Do`, in order. -/
def puts : List Event → List Request
  | [] => []
  | .httpDo _ req :: rest => req :: puts rest
  | _ :: rest => puts rest

/-- The part of a request body written by `CreateFormFile`: its first part. -/
def Request.filePart (r : Request) : Option Part :=
  r.body.parts.head?

/-- The form fields of a request body: the parts after the first, as key and
value bytes. -/
def Request.formFields (r : Request) : List (String × Bytes) :=
  r.body.parts.tail.map fun p => (p.fieldname, p.content)

/-- The paths of the non-directories directly inside a directory. -/
def directFiles (path : String) : Entries → List String
  | .nil => []
  | .cons name (.file _) rest => filepathJoin path name :: directFiles path rest
  | .cons _ (.dir _ _) rest => directFiles path rest
  | .consErr _ _ rest => directFiles path rest

/-- The paths of the regular files directly inside a directory. -/
def directRegular (path : String) : Entries → List String
  | .nil => []
  | .cons name (.file .regular) rest => filepathJoin path name :: directRegular path rest
  | .cons _ _ rest => directRegular path rest
  | .consErr _ _ rest => directRegular path rest

mutual
/-- The paths of the non-directories at or below an entry, in walk order. -/
def allFiles (path : String) : Entry → List String
  | .file _ => [path]
  | .dir _ kids => allFilesIn path kids
/-- The paths of the non-directories below a directory, in walk order. -/
def allFilesIn (path : String) : Entries → List String
  | .nil => []
  | .cons name e rest => allFiles (filepathJoin path name) e ++ allFilesIn path rest
  | .consErr _ _ rest => allFilesIn path rest
end

mutual
/-- The paths of the regular files at or below an entry, in walk order. -/
def allRegular (path : String) : Entry → List String
  | .file .regular => [path]
  | .file _ => []
  | .dir _ kids => allRegularIn path kids
/-- The paths of the regular files below a directory, in walk order. -/
def allRegularIn (path : String) : Entries → List String
  | .nil => []
  | .cons name e rest => allRegular (filepathJoin path name) e ++ allRegularIn path rest
  | .consErr _ _ rest => allRegularIn path rest
end

mutual
/-- No traversal error at or below an entry: every directory can be read and
`Lstat` succeeds on every name. -/
def Entry.sound : Entry → Bool
  | .file _ => true
  | .dir readErr kids => readErr.isNone && kids.sound
/-- No traversal error in a list of entries. -/
def Entries.sound : Entries → Bool
  | .nil => true
  | .cons _ e rest => e.sound && rest.sound
  | .consErr _ _ _ => false
end

mutual
/-- Every non-directory at or below an entry is a regular file. -/
def Entry.plain : Entry → Bool
  | .file k => k == .regular
  | .dir _ kids => kids.plain
/-- Every non-directory in a list of entries is a regular file. -/
def Entries.plain : Entries → Bool
  | .nil => true
  | .cons _ e rest => e.plain && rest.plain
  | .consErr _ _ rest => rest.plain
end

/-- A small world: `/s/a.bin` is a local file, `ID1` decodes to an identifier
that the file server knows, `ID2` to one it does not know; `urlParse` rejects,
as `url.Parse` does, a URL that starts with a colon; under `/r` are the file
`a.bin` and the directory `x` holding `b.bin`. -/
def demoWorld : World :=
  { osOpen := fun p => if p = "/s/a.bin" then .ok ⟨[77, 90, 144], none⟩ else .error "no such file"
    bsonUnmarshal := fun s =>
      if s = "ID1" then .ok ⟨[1, 2, 171], ""⟩
      else if s = "ID2" then .ok ⟨[255], ""⟩ else .error "Document is corrupted"
    httpGet := fun _ url =>
      if url = "http://cfs/0102ab" then .ok ⟨200, ⟨[9, 8], none⟩⟩ else .ok ⟨404, ⟨[], none⟩⟩
    httpDo := fun _ _ => .ok ⟨200, ⟨[], none⟩⟩
    urlParse := fun u => if u.data.head? = some ':' then .error "missing protocol scheme" else .ok u
    typeByFile := fun p =>
      if p = "/r/a.bin" then .ok "application/pdf"
      else if p = "/r/x/b.bin" then .ok "text/plain" else .error "magic: cannot open"
    readLines := fun p => if p = "list.txt" then .ok ["/s/a.bin", "ID1"] else .error "no such file"
    filepathAbs := fun p => .ok p
    lstatRoot := fun p =>
      if p = "/r" then
        .ok (.dir none (.cons "a.bin" (.file .regular)
          (.cons "x" (.dir none (.cons "b.bin" (.file .regular) .nil)) .nil)))
      else .error "no such file or directory"
    now := "2016-05-04T10:00:00Z"
    boundary := "b0" }

/-- The part that `WriteField` writes for one entry of the metadata map. -/
def fieldPart (kv : String × String) : Part :=
  { fieldname := escapeQuotes kv.1, filename := none, content := bytesOf kv.2 }

/-- The request `buildRequest` builds for a sample with content `B`: a PUT to
`uri` whose body is the file part named "sample", with the escaped reference
as filename and `B` as content, then one field per metadata entry under its
escaped key. -/
def wireRequest (w : World) (uri : String) (params : List (String × String))
    (hash : String) (B : Bytes) : Request :=
  { method := "PUT"
    url := uri
    body :=
      { boundary := w.boundary
        parts :=
          { fieldname := "sample", filename := some (escapeQuotes hash), content := B } ::
            params.map fieldPart
        closed := true }
    header := [("Content-Type", "multipart/form-data; boundary=" ++ w.boundary)] }

/-- The request the specification describes for a sample with content `B`: a
PUT to `uri` whose body is the file part named "sample", with the reference
string itself as filename and `B` as content, then one field per metadata
entry under its key, holding the bytes of its value. -/
def expectedRequest (w : World) (uri : String) (params : List (String × String))
    (hash : String) (B : Bytes) : Request :=
  { method := "PUT"
    url := uri
    body :=
      { boundary := w.boundary
        parts :=
          { fieldname := "sample", filename := some hash, content := B } ::
            params.map fun kv => { fieldname := kv.1, filename := none, content := bytesOf kv.2 }
        closed := true }
    header := [("Content-Type", "multipart/form-data; boundary=" ++ w.boundary)] }

/-- A string without backslash, double quote, carriage return and line feed:
`escapeQuotes` has nothing to escape in it. -/
def noEscape (s : String) : Bool :=
  s.data.all fun ch => ch.toNat != 92 && ch.toNat != 34 && ch.toNat != 13 && ch.toNat != 10

/-- A string of ASCII characters only. -/
def isAscii (s : String) : Bool :=
  s.data.all fun ch => ch.toNat < 128

/-- The bytes of an ASCII string: one byte per character, its code. -/
def asciiBytes (s : String) : Bytes :=
  s.data.map fun ch => Fin.ofNat ch.toNat

/-- The world of `demoWorld` with one more local file, whose name holds a line
feed. -/
def newlineWorld : World :=
  { demoWorld with
    osOpen := fun p =>
      if p = "/s/new\nline.bin" then .ok ⟨[1], none⟩ else demoWorld.osOpen p }

/-- The content of a reference resolves to `B`: it opens as a local file that
reads as `B`, or it does not open, decodes to an identifier, and the file
server answers the GET for it with status 200 and body `B`. -/
def Resolves (w : World) (g : Globals) (hash : String) (B : Bytes) : Prop :=
  w.osOpen hash = .ok ⟨B, none⟩ ∨
    ∃ e cId, w.osOpen hash = .error e ∧ w.bsonUnmarshal hash = .ok cId ∧
      w.httpGet g.client (g.critsFileServer ++ "/" ++ Hex cId.Id) = .ok ⟨200, ⟨B, none⟩⟩

/-- The package variables after `init` and the flags
`-storage http://h -cfs http://cfs -insecure`. -/
def demoGlobals : Globals :=
  { init with holmesStorage := "http://h", critsFileServer := "http://cfs", insecure := true }

/-- A root `/r` holding the regular file `a.bin` and the symbolic link `s`. -/
def symlinkEntries : Entries :=
  .cons "a.bin" (.file .regular) (.cons "s" (.file .symlink) .nil)

/-- The world of `demoWorld` with `symlinkEntries` under `/r`. -/
def symlinkWorld : World :=
  { demoWorld with
    typeByFile := fun _ => .ok "application/pdf"
    lstatRoot := fun p =>
      if p = "/r" then .ok (.dir none symlinkEntries) else .error "no such file or directory" }

/-- A world whose root `/r` holds the directory `x`, which cannot be read, and
after it the regular file `y.bin`. -/
def unreadableWorld : World :=
  { demoWorld with
    typeByFile := fun _ => .ok "application/pdf"
    lstatRoot := fun p =>
      if p = "/r" then
        .ok (.dir none (.cons "x" (.dir (some "open /r/x: permission denied") .nil)
          (.cons "y.bin" (.file .regular) .nil)))
      else .error "no such file or directory" }

/-- A world whose root `/r` holds the name `gone`, on which `Lstat` fails, and
after it the regular file `y.bin`. -/
def lstatFailWorld : World :=
  { demoWorld with
    typeByFile := fun _ => .ok "application/pdf"
    lstatRoot := fun p =>
      if p = "/r" then
        .ok (.dir none (.consErr "gone" "lstat /r/gone: no such file or directory"
          (.cons "y.bin" (.file .regular) .nil)))
      else .error "no such file or directory" }

/-- Whether a worker holds a sample, as a number. -/
def WState.load : WState → Nat
  | .recv => 0
  | _ => 1

/-- The invariant of the step system for a run that dispatches `total`
references: no panic; the counter is the reference in the producer's hand plus
the samples workers hold; every increment is either pushed or in hand; every
pushed sample is either done or held; what is not yet incremented is still to
do. -/
def Inv (total : Nat) (s : Sys) : Prop :=
  s.panicked = false ∧
    s.wg = (s.prod.pending : Int) + (busy s.workers : Int) ∧
    s.nAdded = s.nPushed + s.prod.pending ∧
    s.nPushed = s.nDone + busy s.workers ∧
    s.nAdded + s.todo.length = total

/-- The schedule in which worker 0 takes every reference: increment, handoff,
copy, done, once per reference. -/
def serialSchedule : List String → List Action
  | [] => []
  | _ :: rest => .add :: .handoff 0 :: .copy 0 :: .done 0 :: serialSchedule rest

/-- The state of the two-worker run of `demoWorld` over `/s/a.bin` and `ID1`
after both references are dispatched and worker 0 has finished the first one
while worker 1 still holds the second. -/
def demoState : Sys :=
  { wg := 1, todo := [], prod := .ready, workers := [.recv, .got "ID1"]
    g := { demoGlobals with client := { transport := { InsecureSkipVerify := true } } }
    exited := false, panicked := false, nAdded := 2, nPushed := 2, nDone := 1 }

/-! ## Concurrent calls of `copySample` and the shared variable `client`

Several workers run `copySample` at the same time. The only package variable
they write is `client`, at line 184, and they read it at line 219 (inside
`buildRequest`) and at line 185. The step system below cuts one call into the
pieces between these accesses and interleaves the pieces of different
workers. -/

/-- Where a worker stands: at the receive of line 62; in a call of `copySample`
before `buildRequest` (lines 160-170); after `buildRequest` has returned the
request and before the assignment of line 184; after that assignment and
before `client.Do` of line 185. -/
inductive CState
  | recv
  | got (sample : String)
  | built (sample : String) (req : Request)
  | stored (sample : String) (req : Request)
  deriving DecidableEq, Repr

/-- Whether a worker is inside a call that has not yet run line 184. -/
def CState.beforeStore : CState → Bool
  | .got _ => true
  | .built _ _ => true
  | _ => false

/-- One worker: the samples it will still receive from `c`, the number of calls
of `copySample` it has begun, and where it stands. -/
structure CWorker where
  inbox : List String
  call : Nat
  st : CState
  deriving DecidableEq, Repr

/-- One GET sent to the file server: the worker and the number of its call, the
client and URL of the request, and `origin`, the call whose line 184 last
wrote `client` before the GET read it (`none`: nobody has written it yet). -/
structure GetRecord where
  worker : Nat
  call : Nat
  cl : Client
  url : String
  origin : Option (Nat × Nat)
  deriving DecidableEq, Repr

/-- A state of the concurrent system: the package variables, with the shared
`client`; `writer`, the call (worker, number) that last ran line 184; the
workers; the GETs sent so far; whether `log.Fatal` has ended the process.
`writer` and `getLog` are history, nothing reads them. -/
structure CSys where
  g : Globals
  writer : Option (Nat × Nat)
  workers : List CWorker
  getLog : List GetRecord
  exited : Bool
  deriving DecidableEq, Repr

/-- One atomic piece of worker `i`: it receives its next sample and enters
`copySample`; it runs `buildRequest`, lines 162-175; it runs the assignment of
line 184; it runs `client.Do` and the rest, lines 185-201, and `wg.Done()`. -/
inductive CAction
  | recv (i : Nat)
  | build (i : Nat)
  | store (i : Nat)
  | send (i : Nat)
  deriving DecidableEq, Repr

/-- The concurrent system at the start: worker `i` will receive `inboxes[i]`. -/
def CSys.start (g : Globals) (inboxes : List (List String)) : CSys :=
  { g := g, writer := none
    workers := inboxes.map fun inbox => { inbox := inbox, call := 0, st := .recv }
    getLog := [], exited := false }

/-- The records of the GETs in the trace of a `buildRequest` run by call `k` of
worker `i` while `origin` was the last writer of `client`. -/
def getRecords (i k : Nat) (origin : Option (Nat × Nat)) (t : List Event) : List GetRecord :=
  (gets t).map fun p => { worker := i, call := k, cl := p.1, url := p.2, origin := origin }

/-- The step function of the concurrent system; `none` when the action is not
enabled. Each piece runs the lines of `copySample` it stands for on the
package variables as they are at that moment. `buildRequest` is one piece: its
only access to a variable that workers write is the read of `client` at line
219. -/
def cstep (w : World) (s : CSys) (a : CAction) : Option CSys :=
  if s.exited then none
  else
    match a with
    | .recv i =>
      match s.workers[i]? with
      | some { inbox := x :: rest, call := k, st := .recv } =>
        some { s with workers := s.workers.set i { inbox := rest, call := k + 1, st := .got x } }
      | _ => none
    | .build i =>
      match s.workers[i]? with
      | some { inbox := inbox, call := k, st := .got x } =>
        match buildRequest w s.g (s.g.holmesStorage ++ "/samples/")
            [("user_id", s.g.userid), ("source", s.g.source), ("name", filepathBase x),
              ("date", w.now), ("comment", s.g.comment)] x with
        | (.error _, t) =>
          some { s with getLog := s.getLog ++ getRecords i k s.writer t, exited := true }
        | (.ok request, t) =>
          some { s with
            getLog := s.getLog ++ getRecords i k s.writer t
            workers := s.workers.set i { inbox := inbox, call := k, st := .built x request } }
      | _ => none
    | .store i =>
      match s.workers[i]? with
      | some { inbox := inbox, call := k, st := .built x request } =>
        let tr : Transport := if s.g.insecure then { InsecureSkipVerify := true } else {}
        some { s with
          g := { s.g with client := { transport := tr } }
          writer := some (i, k)
          workers := s.workers.set i { inbox := inbox, call := k, st := .stored x request } }
      | _ => none
    | .send i =>
      match s.workers[i]? with
      | some { inbox := inbox, call := k, st := .stored _ request } =>
        match w.httpDo s.g.client request with
        | .error _ => some { s with exited := true }
        | .ok resp =>
          match resp.Body.err with
          | some _ => some { s with exited := true }
          | none => some { s with workers := s.workers.set i { inbox := inbox, call := k, st := .recv } }
      | _ => none

/-- Run a schedule of the concurrent system from a state. -/
def crun (w : World) (s : CSys) : List CAction → Option CSys
  | [] => some s
  | a :: rest =>
    match cstep w s a with
    | none => none
    | some s1 => crun w s1 rest

/-- The invariant of the concurrent system started with the variables `g0`:
only `client` differs from `g0`; it is the client of `g0` as long as nobody has
written it, and afterwards the client line 184 builds; the call that wrote it
last has passed its line 184; and every GET was sent with the client of `g0`
when nobody had written `client`, with the client line 184 builds otherwise,
and never by the call that was the last writer. -/
def CInv (g0 : Globals) (s : CSys) : Prop :=
  s.g = { g0 with client := s.g.client } ∧
    (s.writer = none → s.g.client = g0.client) ∧
    (∀ o, s.writer = some o →
      s.g.client = { transport := { InsecureSkipVerify := g0.insecure } }) ∧
    (∀ i k wk, s.writer = some (i, k) → s.workers[i]? = some wk →
      k ≤ wk.call ∧ (k = wk.call → wk.st.beforeStore = false)) ∧
    ∀ r ∈ s.getLog,
      r.origin ≠ some (r.worker, r.call) ∧
        (r.origin = none → r.cl = g0.client) ∧
        (∀ o, r.origin = some o →
          r.cl = { transport := { InsecureSkipVerify := g0.insecure } })

/-- The state of the two-worker run of `demoWorld` in which worker 0 has begun
its call for `ID1`, worker 1 has then run its whole call for `/s/a.bin`, and
worker 0 has then run `buildRequest`: its GET went out with the client that
the call of worker 1 stored after the call of worker 0 had begun. -/
def raceState : CSys :=
  { g := { demoGlobals with client := { transport := { InsecureSkipVerify := true } } }
    writer := some (1, 1)
    workers :=
      [{ inbox := [], call := 1,
         st := .built "ID1"
           { method := "PUT", url := "http://h/samples/"
             body :=
               { boundary := "b0"
                 parts :=
                   [{ fieldname := "sample", filename := some "ID1", content := [9, 8] },
                    { fieldname := "user_id", filename := none, content := [] },
                    { fieldname := "source", filename := none, content := [] },
                    { fieldname := "name", filename := none, content := [73, 68, 49] },
                    { fieldname := "date", filename := none,
                      content := [50, 48, 49, 54, 45, 48, 53, 45, 48, 52, 84, 49, 48, 58, 48, 48,
                        58, 48, 48, 90] },
                    { fieldname := "comment", filename := none, content := [] }]
                 closed := true }
             header := [("Content-Type", "multipart/form-data; boundary=b0")] } },
       { inbox := [], call := 1, st := .recv }]
    getLog :=
      [{ worker := 0, call := 1, cl := { transport := { InsecureSkipVerify := true } },
         url := "http://cfs/0102ab", origin := some (1, 1) }]
    exited := false }

/-- In a trace, every send comes right after its own `wg.Add(1)`, and the
counter is touched for nothing else: the events on the counter and the channel
are one increment-send pair per sample sent. -/
def Paired (t : List Event) : Prop :=
  syncEvents t = dispatchLines (sent t)

/-! ## Properties of the request builder -/

theorem writeFields_eq (params : List (String × String)) (wr : Writer) :
    writeFields wr params = .ok { wr with parts := wr.parts ++ params.map fieldPart } := by
  induction params generalizing wr with
  | nil => simp [writeFields]
  | cons kv rest ih =>
    obtain ⟨k, v⟩ := kv
    simp [writeFields, Writer.WriteField, ih, fieldPart]

theorem escapeQuotes_sample : escapeQuotes "sample" = "sample" := by
  decide

/-- The four characters `escapeQuotes` rewrites, and one it leaves alone. -/
theorem escapeQuotes_examples :
    escapeQuotes "a\"b" = "a\\\"b" ∧ escapeQuotes "a\\b" = "a\\\\b" ∧
      escapeQuotes "a\rb" = "a%0Db" ∧ escapeQuotes "a\nb" = "a%0Ab" ∧
      escapeQuotes "a%b" = "a%b" := by
  decide

theorem escapeChar_of_noEscape (ch : Char)
    (h : (ch.toNat != 92 && ch.toNat != 34 && ch.toNat != 13 && ch.toNat != 10) = true) :
    escapeChar ch = [ch] := by
  simp only [Bool.and_eq_true, bne_iff_ne, ne_eq] at h
  obtain ⟨⟨⟨h1, h2⟩, h3⟩, h4⟩ := h
  simp [escapeChar, h1, h2, h3, h4]

/-- The function `escapeQuotes` leaves a string without special characters as it
is. -/
theorem escapeQuotes_of_noEscape (s : String) (h : noEscape s = true) : escapeQuotes s = s := by
  have key : ∀ l : List Char,
      (l.all fun ch => ch.toNat != 92 && ch.toNat != 34 && ch.toNat != 13 && ch.toNat != 10) = true →
      l.flatMap escapeChar = l := by
    intro l
    induction l with
    | nil => intro _; rfl
    | cons x xs ih =>
      intro hl
      rw [List.all_cons, Bool.and_eq_true] at hl
      rw [List.flatMap_cons, escapeChar_of_noEscape x hl.1, ih hl.2]
      rfl
  unfold escapeQuotes
  rw [key s.data h]

theorem utf8Char_of_ascii (ch : Char) (h : ch.toNat < 128) : utf8Char ch = [ch.toNat] := by
  simp [utf8Char, h]

/-- The conversion `[]byte(s)` of an ASCII string gives the codes of its
characters, one byte each. -/
theorem bytesOf_of_isAscii (s : String) (h : isAscii s = true) : bytesOf s = asciiBytes s := by
  have key : ∀ l : List Char, (l.all fun ch => decide (ch.toNat < 128)) = true →
      (l.flatMap utf8Char).map (fun n => (Fin.ofNat n : Byte))
        = l.map fun ch => (Fin.ofNat ch.toNat : Byte) := by
    intro l
    induction l with
    | nil => intro _; rfl
    | cons x xs ih =>
      intro hl
      rw [List.all_cons, Bool.and_eq_true] at hl
      have hx : x.toNat < 128 := by simpa using hl.1
      rw [List.flatMap_cons, utf8Char_of_ascii x hx, List.map_append, ih hl.2]
      rfl
  exact key s.data h

/-- What `buildRequest` returns for a reference that opens as a local file and
reads without error. -/
theorem buildRequest_of_local (w : World) (g : Globals) (uri : String)
    (params : List (String × String)) (hash : String) (B : Bytes)
    (hopen : w.osOpen hash = .ok ⟨B, none⟩) :
    buildRequest w g uri params hash =
      (match w.urlParse uri with
        | .error e => .error e
        | .ok _ => .ok (wireRequest w uri params hash B), [.osOpen hash]) := by
  simp only [buildRequest, resolveReader, buildPut, hopen, NewWriter, Writer.CreateFormFile,
    ioCopy, writeFields_eq, Writer.Close, httpNewRequest, List.nil_append, List.reverse_cons,
    List.reverse_nil, List.append_nil, escapeQuotes_sample]
  cases hu : w.urlParse uri <;>
    simp [wireRequest, Request.headerAdd, Writer.FormDataContentType]

/-- What `buildRequest` returns for a reference that does not open, decodes, and
is served with status 200 and a body that reads without error. -/
theorem buildRequest_of_remote (w : World) (g : Globals) (uri : String)
    (params : List (String × String)) (hash : String) (B : Bytes) (e : String) (cId : critsSample)
    (hopen : w.osOpen hash = .error e) (hdec : w.bsonUnmarshal hash = .ok cId)
    (hget : w.httpGet g.client (g.critsFileServer ++ "/" ++ Hex cId.Id) = .ok ⟨200, ⟨B, none⟩⟩) :
    buildRequest w g uri params hash =
      (match w.urlParse uri with
        | .error e => .error e
        | .ok _ => .ok (wireRequest w uri params hash B),
        [.osOpen hash, .bsonUnmarshal hash,
          .httpGet g.client (g.critsFileServer ++ "/" ++ Hex cId.Id),
          .respClose ⟨200, ⟨B, none⟩⟩]) := by
  simp only [buildRequest, resolveReader, buildPut, SafeResponseClose, hopen, hdec, hget, NewWriter,
    Writer.CreateFormFile, ioCopy, writeFields_eq, Writer.Close, httpNewRequest, List.nil_append,
    List.reverse_cons, List.reverse_nil, List.append_nil, escapeQuotes_sample]
  cases hu : w.urlParse uri <;>
    simp [wireRequest, Request.headerAdd, Writer.FormDataContentType]

/-- When neither the reference nor any key holds a character that
`escapeQuotes` rewrites, the request built is the one the specification
describes. -/
theorem wireRequest_of_noEscape (w : World) (uri : String) (params : List (String × String))
    (hash : String) (B : Bytes) (hh : noEscape hash = true)
    (hk : ∀ kv ∈ params, noEscape kv.1 = true) :
    wireRequest w uri params hash B = expectedRequest w uri params hash B := by
  have hmap : params.map fieldPart
      = params.map fun kv => ({ fieldname := kv.1, filename := none, content := bytesOf kv.2 } : Part) := by
    apply List.map_congr_left
    intro kv hkv
    simp [fieldPart, escapeQuotes_of_noEscape kv.1 (hk kv hkv)]
  simp [wireRequest, expectedRequest, escapeQuotes_of_noEscape hash hh, hmap]

/-- C1, as amended: for a reference that opens as a local file with content `B`
and reads without error, and a `uri` that `http.NewRequest` accepts,
`buildRequest` returns a request and no error; the only effect is the open of
that exact path; the file part of the body (field `sample`, the filename being
the reference as `CreateFormFile` escapes it, the reference itself when it
has nothing to escape) holds exactly `B`. -/
theorem buildRequest_local_file (w : World) (g : Globals) (uri : String)
    (params : List (String × String)) (hash : String) (B : Bytes) (u : String)
    (hopen : w.osOpen hash = .ok ⟨B, none⟩) (huri : w.urlParse uri = .ok u) :
    ∃ req, buildRequest w g uri params hash = (.ok req, [.osOpen hash]) ∧
      req.filePart =
        some { fieldname := "sample", filename := some (escapeQuotes hash), content := B } ∧
      (noEscape hash = true →
        req.filePart = some { fieldname := "sample", filename := some hash, content := B }) ∧
      (req.filePart.map fun p => p.content) = some B := by
  refine ⟨wireRequest w uri params hash B, ?_, rfl, ?_, rfl⟩
  · rw [buildRequest_of_local w g uri params hash B hopen, huri]
  · intro hh
    simp [Request.filePart, wireRequest, escapeQuotes_of_noEscape hash hh]

/-- C1 at a concrete input: the local file `/s/a.bin` opens and reads as three
bytes, and the request for it is built. -/
theorem buildRequest_local_file_witness :
    ∃ req, buildRequest demoWorld init "http://h/samples/" [("user_id", "7")] "/s/a.bin"
        = (.ok req, [.osOpen "/s/a.bin"]) ∧
      req.filePart =
        some { fieldname := "sample", filename := some (escapeQuotes "/s/a.bin"),
               content := [77, 90, 144] } ∧
      (noEscape "/s/a.bin" = true →
        req.filePart =
          some { fieldname := "sample", filename := some "/s/a.bin", content := [77, 90, 144] }) ∧
      (req.filePart.map fun p => p.content) = some [77, 90, 144] :=
  buildRequest_local_file demoWorld init "http://h/samples/" [("user_id", "7")] "/s/a.bin"
    [77, 90, 144] "http://h/samples/" (by decide) (by decide)

/-- C1 as stated fails: `/s/a.bin` opens as a local file and reads without
error, yet with the storage URL `:8080` (so `uri` is `:8080/samples/`, which
`http.NewRequest` rejects for its missing scheme) `buildRequest` returns the
error and no request. -/
theorem buildRequest_local_file_bad_uri :
    demoWorld.osOpen "/s/a.bin" = .ok ⟨[77, 90, 144], none⟩ ∧
      buildRequest demoWorld init ":8080/samples/" [("user_id", "7")] "/s/a.bin"
        = (.error "missing protocol scheme", [.osOpen "/s/a.bin"]) := by
  decide

/-- C2, as amended: for a metadata map with distinct keys and a reference whose
content resolves to `B` (locally or from the file server), `buildRequest`
returns exactly what `http.NewRequest` makes of the body of `wireRequest`, and
every request it returns has as parts the file part, with field name `sample`,
as filename the reference string (not its basename) the way `CreateFormFile`
writes it, that is escaped by `escapeQuotes`, and content `B`, followed by one
field per entry of `params`, under the escaped key and holding the bytes of
that entry's value, and nothing else. When the reference has nothing to
escape the filename is the reference itself; when no key has, the fields are
exactly the entries of `params`, under distinct keys; an ASCII value is
carried as the codes of its characters; and when neither reference nor keys
have anything to escape the request is the one the specification describes. -/
theorem buildRequest_parts (w : World) (g : Globals) (uri : String)
    (params : List (String × String)) (hash : String) (B : Bytes)
    (hkeys : (params.map Prod.fst).Nodup) (hres : Resolves w g hash B) :
    (buildRequest w g uri params hash).1 =
        (match w.urlParse uri with
          | .error e => .error e
          | .ok _ => .ok (wireRequest w uri params hash B)) ∧
      ∀ req, (buildRequest w g uri params hash).1 = .ok req →
        req.body.parts =
            { fieldname := "sample", filename := some (escapeQuotes hash), content := B } ::
              params.map (fun kv =>
                { fieldname := escapeQuotes kv.1, filename := none, content := bytesOf kv.2 }) ∧
          req.body.parts.length = 1 + params.length ∧
          req.formFields = params.map (fun kv => (escapeQuotes kv.1, bytesOf kv.2)) ∧
          (noEscape hash = true →
            req.filePart = some { fieldname := "sample", filename := some hash, content := B }) ∧
          ((∀ kv ∈ params, noEscape kv.1 = true) →
            req.formFields = params.map (fun kv => (kv.1, bytesOf kv.2)) ∧
              (req.formFields.map Prod.fst).Nodup) ∧
          (∀ kv ∈ params, isAscii kv.2 = true →
            (escapeQuotes kv.1, asciiBytes kv.2) ∈ req.formFields) ∧
          (noEscape hash = true → (∀ kv ∈ params, noEscape kv.1 = true) →
            req = expectedRequest w uri params hash B) := by
  have key : (buildRequest w g uri params hash).1 =
      (match w.urlParse uri with
        | .error e => .error e
        | .ok _ => .ok (wireRequest w uri params hash B)) := by
    rcases hres with hopen | ⟨e, cId, hopen, hdec, hget⟩
    · rw [buildRequest_of_local w g uri params hash B hopen]
    · rw [buildRequest_of_remote w g uri params hash B e cId hopen hdec hget]
  refine ⟨key, ?_⟩
  intro req hreq
  rw [key] at hreq
  cases hu : w.urlParse uri with
  | error e => simp [hu] at hreq
  | ok u =>
    simp only [hu, Except.ok.injEq] at hreq
    subst hreq
    have hf : (wireRequest w uri params hash B).formFields
        = params.map (fun kv => (escapeQuotes kv.1, bytesOf kv.2)) := by
      simp [Request.formFields, wireRequest, fieldPart, List.map_map, Function.comp_def]
    refine ⟨rfl, ?_, hf, ?_, ?_, ?_, ?_⟩
    · simp [wireRequest, Nat.add_comm]
    · intro hh
      simp [Request.filePart, wireRequest, escapeQuotes_of_noEscape hash hh]
    · intro hk
      have hf2 : (wireRequest w uri params hash B).formFields
          = params.map (fun kv => (kv.1, bytesOf kv.2)) := by
        rw [hf]
        apply List.map_congr_left
        intro kv hkv
        rw [escapeQuotes_of_noEscape kv.1 (hk kv hkv)]
      refine ⟨hf2, ?_⟩
      rw [hf2, List.map_map]
      exact hkeys
    · intro kv hkv hascii
      rw [hf, ← bytesOf_of_isAscii kv.2 hascii]
      exact List.mem_map_of_mem _ hkv
    · intro hh hk
      exact wireRequest_of_noEscape w uri params hash B hh hk

/-- C2 at the metadata of the specification: the request built for `/s/a.bin` is
the one the specification describes, and its form fields are the five keys
with the bytes of their values, after the one file part; a value outside
ASCII is carried as its UTF-8 bytes. -/
theorem buildRequest_parts_witness :
    (buildRequest demoWorld init "http://h/samples/"
        [("user_id", "7"), ("source", "upload"), ("name", "a.bin"),
          ("date", "2016-05-04T10:00:00Z"), ("comment", "hi")] "/s/a.bin").1 =
        .ok (expectedRequest demoWorld "http://h/samples/"
          [("user_id", "7"), ("source", "upload"), ("name", "a.bin"),
            ("date", "2016-05-04T10:00:00Z"), ("comment", "hi")] "/s/a.bin" [77, 90, 144]) ∧
      (expectedRequest demoWorld "http://h/samples/"
          [("user_id", "7"), ("source", "upload"), ("name", "a.bin"),
            ("date", "2016-05-04T10:00:00Z"), ("comment", "hi")] "/s/a.bin" [77, 90, 144]).body.parts =
        [{ fieldname := "sample", filename := some "/s/a.bin", content := [77, 90, 144] },
          { fieldname := "user_id", filename := none, content := [55] },
          { fieldname := "source", filename := none, content := [117, 112, 108, 111, 97, 100] },
          { fieldname := "name", filename := none, content := [97, 46, 98, 105, 110] },
          { fieldname := "date", filename := none,
            content := [50, 48, 49, 54, 45, 48, 53, 45, 48, 52, 84, 49, 48, 58, 48, 48, 58, 48, 48, 90] },
          { fieldname := "comment", filename := none, content := [104, 105] }] ∧
      ((buildRequest demoWorld init "http://h/samples/" [("comment", "é€𝄞")] "/s/a.bin").1.toOption.map
          fun req => req.formFields) =
        some [("comment", [195, 169, 226, 130, 172, 240, 157, 132, 158])] :=
  ⟨((buildRequest_parts demoWorld init "http://h/samples/"
      [("user_id", "7"), ("source", "upload"), ("name", "a.bin"),
        ("date", "2016-05-04T10:00:00Z"), ("comment", "hi")] "/s/a.bin" [77, 90, 144]
      (by decide) (Or.inl (by decide))).1).trans (by decide),
    by decide, by decide⟩

/-- C2 as stated fails: the local file `/s/new` + line feed + `line.bin` resolves,
and the file part of the request built for it carries the filename
`/s/new%0Aline.bin`, which is not the reference string. -/
theorem buildRequest_parts_escaped_filename :
    newlineWorld.osOpen "/s/new\nline.bin" = .ok ⟨[1], none⟩ ∧
      (buildRequest newlineWorld init "http://h/samples/" [] "/s/new\nline.bin").1 =
        .ok { method := "PUT"
              url := "http://h/samples/"
              body :=
                { boundary := "b0"
                  parts :=
                    [{ fieldname := "sample", filename := some "/s/new%0Aline.bin",
                       content := [1] }]
                  closed := true }
              header := [("Content-Type", "multipart/form-data; boundary=b0")] } ∧
      "/s/new%0Aline.bin" ≠ "/s/new\nline.bin" := by
  decide

/-- The effects of `buildRequest` are those of its first half. -/
theorem buildRequest_trace (w : World) (g : Globals) (uri : String)
    (params : List (String × String)) (hash : String) :
    (buildRequest w g uri params hash).2 =
      (resolveReader w g hash).2.1 ++ (resolveReader w g hash).2.2 := by
  unfold buildRequest
  split <;> rename_i h <;> simp [h]

/-- The effects of `resolveReader`, case by case. -/
theorem resolveReader_trace (w : World) (g : Globals) (hash : String) :
    (resolveReader w g hash).2.1 ++ (resolveReader w g hash).2.2 =
      match w.osOpen hash with
      | .ok _ => [.osOpen hash]
      | .error _ =>
        match w.bsonUnmarshal hash with
        | .error _ => [.osOpen hash, .bsonUnmarshal hash]
        | .ok cId =>
          match w.httpGet g.client (g.critsFileServer ++ "/" ++ Hex cId.Id) with
          | .error _ =>
            [.osOpen hash, .bsonUnmarshal hash,
              .httpGet g.client (g.critsFileServer ++ "/" ++ Hex cId.Id)]
          | .ok resp =>
            [.osOpen hash, .bsonUnmarshal hash,
              .httpGet g.client (g.critsFileServer ++ "/" ++ Hex cId.Id),
              .respClose resp] := by
  unfold resolveReader SafeResponseClose
  cases hopen : w.osOpen hash with
  | ok f => rfl
  | error e =>
    cases hdec : w.bsonUnmarshal hash with
    | error e2 => rfl
    | ok cId =>
      cases hget : w.httpGet g.client (g.critsFileServer ++ "/" ++ Hex cId.Id) with
      | error e3 => simp [hget]
      | ok resp => by_cases hst : resp.StatusCode = 200 <;> simp [hget, hst]

/-- C3: `buildRequest` starts with the local open of the reference; the decode
is attempted exactly when that open fails, and then right after it; and when
both fail the result is the decode error with no request, after the open and
the decode and nothing else, so without any GET to the file server. -/
theorem buildRequest_open_then_decode (w : World) (g : Globals) (uri : String)
    (params : List (String × String)) (hash : String) :
    (∃ rest, (buildRequest w g uri params hash).2 = .osOpen hash :: rest ∧
        (.bsonUnmarshal hash ∈ rest ↔ ∃ e, w.osOpen hash = .error e) ∧
        ((∃ e, w.osOpen hash = .error e) → rest.head? = some (.bsonUnmarshal hash))) ∧
      ∀ e1 e2, w.osOpen hash = .error e1 → w.bsonUnmarshal hash = .error e2 →
        buildRequest w g uri params hash = (.error e2, [.osOpen hash, .bsonUnmarshal hash]) ∧
          gets (buildRequest w g uri params hash).2 = [] := by
  constructor
  · rw [buildRequest_trace, resolveReader_trace]
    cases hopen : w.osOpen hash with
    | ok f => exact ⟨[], rfl, by simp, by simp⟩
    | error e =>
      cases hdec : w.bsonUnmarshal hash with
      | error e2 => exact ⟨[.bsonUnmarshal hash], rfl, by simp, by simp⟩
      | ok cId =>
        cases hget : w.httpGet g.client (g.critsFileServer ++ "/" ++ Hex cId.Id) with
        | error e3 =>
          exact ⟨[.bsonUnmarshal hash, .httpGet g.client (g.critsFileServer ++ "/" ++ Hex cId.Id)],
            by simp [hget], by simp, by simp⟩
        | ok resp =>
          exact ⟨[.bsonUnmarshal hash, .httpGet g.client (g.critsFileServer ++ "/" ++ Hex cId.Id),
            .respClose resp], by simp [hget], by simp, by simp⟩
  · intro e1 e2 hopen hdec
    have h : buildRequest w g uri params hash
        = (.error e2, [.osOpen hash, .bsonUnmarshal hash]) := by
      simp [buildRequest, resolveReader, hopen, hdec]
    exact ⟨h, by rw [h]; rfl⟩

/-- C3 at a concrete input: `zz` neither opens nor decodes. -/
theorem buildRequest_open_then_decode_witness :
    buildRequest demoWorld init "http://h/samples/" [] "zz"
        = (.error "Document is corrupted", [.osOpen "zz", .bsonUnmarshal "zz"]) ∧
      gets (buildRequest demoWorld init "http://h/samples/" [] "zz").2 = [] :=
  (buildRequest_open_then_decode demoWorld init "http://h/samples/" [] "zz").2
    "no such file" "Document is corrupted" (by decide) (by decide)

/-! ## Properties of the sample copier -/

theorem gets_append (a b : List Event) : gets (a ++ b) = gets a ++ gets b := by
  induction a with
  | nil => rfl
  | cons x xs ih => cases x <;> simp [gets, ih]

theorem puts_append (a b : List Event) : puts (a ++ b) = puts a ++ puts b := by
  induction a with
  | nil => rfl
  | cons x xs ih => cases x <;> simp [puts, ih]

/-- The effects of `copySample` start with those of `buildRequest`, and what
follows contains no GET. -/
theorem copySample_trace (w : World) (g : Globals) (name : String) :
    ∃ more, (copySample w g name).trace =
        (buildRequest w g (g.holmesStorage ++ "/samples/")
          [("user_id", g.userid), ("source", g.source), ("name", filepathBase name),
            ("date", w.now), ("comment", g.comment)] name).2 ++ more ∧
      gets more = [] := by
  unfold copySample
  simp only []
  generalize buildRequest w g (g.holmesStorage ++ "/samples/")
    [("user_id", g.userid), ("source", g.source), ("name", filepathBase name),
      ("date", w.now), ("comment", g.comment)] name = br
  obtain ⟨res, t⟩ := br
  cases res with
  | error e => exact ⟨[.log ("ERROR: " ++ e)], rfl, rfl⟩
  | ok request =>
    simp only []
    split
    · exact ⟨_, rfl, rfl⟩
    · split
      · exact ⟨_, rfl, rfl⟩
      · exact ⟨_, rfl, rfl⟩

/-- Every GET of `buildRequest` is sent with the client in `g`. -/
theorem buildRequest_gets (w : World) (g : Globals) (uri : String)
    (params : List (String × String)) (hash : String) :
    ∀ p ∈ gets (buildRequest w g uri params hash).2, p.1 = g.client := by
  rw [buildRequest_trace, resolveReader_trace]
  cases hopen : w.osOpen hash with
  | ok f => simp [gets]
  | error e =>
    cases hdec : w.bsonUnmarshal hash with
    | error e2 => simp [gets]
    | ok cId =>
      cases hget : w.httpGet g.client (g.critsFileServer ++ "/" ++ Hex cId.Id) with
      | error e3 => simp [gets, hget]
      | ok resp => simp [gets, hget]

/-- C4: for a reference that does not open locally but decodes to an
identifier, a GET answer with a status other than 200 makes `buildRequest`
fail with "Couldn't download file" and no request (after draining and closing
the response), and `copySample` then ends in `log.Fatal` without any PUT. -/
theorem copySample_download_failed (w : World) (g : Globals) (name : String) (e : String)
    (cId : critsSample) (resp : Response) (hopen : w.osOpen name = .error e)
    (hdec : w.bsonUnmarshal name = .ok cId)
    (hget : w.httpGet g.client (g.critsFileServer ++ "/" ++ Hex cId.Id) = .ok resp)
    (hst : resp.StatusCode ≠ 200) :
    (∀ uri params, buildRequest w g uri params name =
        (.error "Couldn't download file",
          [.osOpen name, .bsonUnmarshal name,
            .httpGet g.client (g.critsFileServer ++ "/" ++ Hex cId.Id), .respClose resp])) ∧
      (copySample w g name).ret = .fatal "ERROR: Couldn't download file" ∧
      puts (copySample w g name).trace = [] ∧
      (copySample w g name).g = g := by
  have h : ∀ uri params, buildRequest w g uri params name =
      (.error "Couldn't download file",
        [.osOpen name, .bsonUnmarshal name,
          .httpGet g.client (g.critsFileServer ++ "/" ++ Hex cId.Id), .respClose resp]) := by
    intro uri params
    simp [buildRequest, resolveReader, SafeResponseClose, hopen, hdec, hget, hst]
  refine ⟨h, ?_, ?_, ?_⟩ <;> simp [copySample, h, puts]

/-- C4 at a concrete input: the file server answers 404 for `ID2`. -/
theorem copySample_download_failed_witness :
    (∀ uri params, buildRequest demoWorld demoGlobals uri params "ID2" =
        (.error "Couldn't download file",
          [.osOpen "ID2", .bsonUnmarshal "ID2",
            .httpGet demoGlobals.client (demoGlobals.critsFileServer ++ "/" ++ Hex [255]),
            .respClose ⟨404, ⟨[], none⟩⟩])) ∧
      (copySample demoWorld demoGlobals "ID2").ret = .fatal "ERROR: Couldn't download file" ∧
      puts (copySample demoWorld demoGlobals "ID2").trace = [] ∧
      (copySample demoWorld demoGlobals "ID2").g = demoGlobals :=
  copySample_download_failed demoWorld demoGlobals "ID2" "no such file" ⟨[255], ""⟩
    ⟨404, ⟨[], none⟩⟩ (by decide) (by decide) (by decide) (by decide)

/-- C9, as amended: `copySample` leaves every configuration variable as it was;
the one package variable it writes is `client`, and it writes it in every call
whose `buildRequest` succeeds, to a client whose transport skips certificate
validation exactly when the insecure flag is set; a call whose `buildRequest`
fails changes nothing. -/
theorem copySample_globals (w : World) (g : Globals) (name : String) :
    (copySample w g name).g = { g with client := (copySample w g name).g.client } ∧
      (∀ req t, buildRequest w g (g.holmesStorage ++ "/samples/")
          [("user_id", g.userid), ("source", g.source), ("name", filepathBase name),
            ("date", w.now), ("comment", g.comment)] name = (.ok req, t) →
        (copySample w g name).g.client = { transport := { InsecureSkipVerify := g.insecure } }) ∧
      (∀ e t, buildRequest w g (g.holmesStorage ++ "/samples/")
          [("user_id", g.userid), ("source", g.source), ("name", filepathBase name),
            ("date", w.now), ("comment", g.comment)] name = (.error e, t) →
        (copySample w g name).g = g) := by
  refine ⟨?_, ?_, ?_⟩
  · unfold copySample
    simp only []
    split
    · rfl
    · split
      · rfl
      · split <;> rfl
  · intro req t h
    unfold copySample
    simp only [h]
    cases g.insecure <;> (split <;> [rfl; (split <;> rfl)])
  · intro e t h
    simp [copySample, h]

/-- C9 as stated fails: started with the insecure flag, a call of `copySample`
on the local file `/s/a.bin` changes the process-wide `client`. -/
theorem copySample_writes_client :
    demoGlobals.client = { transport := { InsecureSkipVerify := false } } ∧
      (copySample demoWorld demoGlobals "/s/a.bin").g.client
        = { transport := { InsecureSkipVerify := true } } ∧
      (copySample demoWorld demoGlobals "/s/a.bin").g ≠ demoGlobals := by
  decide

/-- The effects of a worker start with those of `copySample` on its first
sample. -/
theorem worker_trace_cons (w : World) (g : Globals) (sample : String) (rest : List String) :
    ∃ more, (worker w g (sample :: rest)).trace = (copySample w g sample).trace ++ more := by
  unfold worker
  simp only []
  cases (copySample w g sample).ret with
  | returned =>
    exact ⟨[.wgDone] ++ (worker w (copySample w g sample).g rest).trace, by
      simp only [List.append_assoc]⟩
  | fatal m => exact ⟨[], by simp⟩
  | panicked m => exact ⟨[], by simp⟩
  | blocked => exact ⟨[], by simp⟩

/-- C10 as stated fails in its last part: in the one-worker run started with
the insecure flag over the references `/s/a.bin` (a local file) and `ID1`, the
GET for `ID1`, the first reference that is not local, is the only GET, and it
is sent by the client that the call for `/s/a.bin` stored, whose transport
skips certificate validation, not by the client of `init`. -/
theorem worker_get_after_local_upload :
    demoGlobals.insecure = true ∧ demoGlobals.client = init.client ∧
      init.client.transport.InsecureSkipVerify = false ∧
      (∃ r, demoWorld.osOpen "/s/a.bin" = .ok r) ∧
      (∃ e, demoWorld.osOpen "ID1" = .error e) ∧
      gets (worker demoWorld demoGlobals ["/s/a.bin", "ID1"]).trace
        = [({ transport := { InsecureSkipVerify := true } }, "http://cfs/0102ab")] := by
  refine ⟨by decide, by decide, by decide, ⟨_, rfl⟩, ⟨_, rfl⟩, by decide⟩

/-! ## Properties of the directory walker -/

theorem stringsContains_iff (s substr : String) :
    stringsContains s substr = true ↔ substr.data <:+: s.data := by
  simp only [stringsContains, List.any_eq_true, List.mem_tails, List.isPrefixOf_iff_prefix]
  rw [List.infix_iff_prefix_suffix]
  constructor
  · rintro ⟨t, ht, hp⟩
    exact ⟨t, hp, ht⟩
  · rintro ⟨t, hp, ht⟩
    exact ⟨t, ht, hp⟩

theorem classified_append (a b : List Event) :
    classified (a ++ b) = classified a ++ classified b := by
  induction a with
  | nil => rfl
  | cons x xs ih => cases x <;> simp [classified, ih]

theorem syncEvents_append (a b : List Event) :
    syncEvents (a ++ b) = syncEvents a ++ syncEvents b := by
  induction a with
  | nil => rfl
  | cons x xs ih => cases x <;> simp [syncEvents, ih]

/-- What `walkFn` does for a non-directory: it classifies the path, returns nil
and leaves the package variables alone; it dispatches exactly when the
sniffing succeeds and the detected type contains the filter. -/
theorem walkFn_nondir (w : World) (g : Globals) (path : String) (k : FileKind)
    (err : Option GoError) :
    (walkFn w g path (some (.nondir k)) err).ret = .val none ∧
      (walkFn w g path (some (.nondir k)) err).g = g ∧
      classified (walkFn w g path (some (.nondir k)) err).trace = [path] ∧
      syncEvents (walkFn w g path (some (.nondir k)) err).trace =
        (match w.typeByFile path with
          | .error _ => []
          | .ok m => if stringsContains m g.mimetypePattern then [.wgAdd 1, .send path] else []) := by
  unfold walkFn
  simp only [FileInfo.IsDir, Bool.false_eq_true, if_false]
  cases w.typeByFile path with
  | error e => simp [classified, syncEvents]
  | ok m =>
    by_cases hc : stringsContains m g.mimetypePattern = true <;>
      simp [hc, classified, syncEvents]

/-- C5: for a regular file and any filter, `walkFn` returns nil (the walk goes
on) and changes no package variable; it dispatches the file, that is increments
the counter and then sends the path, if and only if the sniffing succeeds and
the filter is empty or a substring of the detected type; otherwise it touches
neither the counter nor the channel. With the filter `pdf`, a file detected as
`application/pdf` is dispatched and one detected as `text/plain` is not. -/
theorem walkFn_regular_file (w : World) (g : Globals) (path : String) (fi : FileInfo)
    (err : Option GoError) (hreg : fi.IsRegular = true) :
    (walkFn w g path (some fi) err).ret = .val none ∧
      (walkFn w g path (some fi) err).g = g ∧
      (syncEvents (walkFn w g path (some fi) err).trace = [.wgAdd 1, .send path] ↔
        ∃ m, w.typeByFile path = .ok m ∧
          (g.mimetypePattern = "" ∨ g.mimetypePattern.data <:+: m.data)) ∧
      (syncEvents (walkFn w g path (some fi) err).trace ≠ [.wgAdd 1, .send path] →
        syncEvents (walkFn w g path (some fi) err).trace = [] ∧
          sent (walkFn w g path (some fi) err).trace = []) ∧
      (g.mimetypePattern = "pdf" → w.typeByFile path = .ok "application/pdf" →
        syncEvents (walkFn w g path (some fi) err).trace = [.wgAdd 1, .send path]) ∧
      (g.mimetypePattern = "pdf" → w.typeByFile path = .ok "text/plain" →
        syncEvents (walkFn w g path (some fi) err).trace = []) := by
  have hfi : fi = .nondir .regular := by
    cases fi with
    | dir => simp [FileInfo.IsRegular] at hreg
    | nondir k => cases k <;> simp [FileInfo.IsRegular] at hreg ⊢
  subst hfi
  obtain ⟨h1, h2, _, h4⟩ := walkFn_nondir w g path .regular err
  have hsent : syncEvents (walkFn w g path (some (.nondir .regular)) err).trace = [] →
      sent (walkFn w g path (some (.nondir .regular)) err).trace = [] := by
    unfold walkFn
    simp only [FileInfo.IsDir, Bool.false_eq_true, if_false]
    cases w.typeByFile path with
    | error e => intro _; rfl
    | ok m =>
      by_cases hc : stringsContains m g.mimetypePattern = true
      · simp only [hc, if_true]
        intro h
        simp [syncEvents] at h
      · simp only [hc, if_false]
        intro _
        rfl
  refine ⟨h1, h2, ?_, ?_, ?_, ?_⟩
  · rw [h4]
    cases ht : w.typeByFile path with
    | error e => simp
    | ok m =>
      by_cases hc : stringsContains m g.mimetypePattern = true
      · simp only [hc, if_true, true_iff]
        exact ⟨m, rfl, Or.inr ((stringsContains_iff _ _).1 hc)⟩
      · simp only [hc, if_false]
        constructor
        · intro h
          simp at h
        · rintro ⟨m2, hm, hor⟩
          injection hm with hm
          subst hm
          exfalso
          apply hc
          rw [stringsContains_iff]
          rcases hor with h0 | hin
          · rw [h0]
            exact List.nil_infix
          · exact hin
  · intro hne
    have h0 : syncEvents (walkFn w g path (some (.nondir .regular)) err).trace = [] := by
      rw [h4] at hne ⊢
      cases ht : w.typeByFile path with
      | error e => rfl
      | ok m =>
        by_cases hc : stringsContains m g.mimetypePattern = true
        · simp [ht, hc] at hne
        · simp [hc]
    exact ⟨h0, hsent h0⟩
  · intro hp ht
    have hc : stringsContains "application/pdf" "pdf" = true := by decide
    rw [h4, ht, hp]
    simp [hc]
  · intro hp ht
    have hc : stringsContains "text/plain" "pdf" = false := by decide
    rw [h4, ht, hp]
    simp [hc]

/-- C5 at a concrete input: with the filter `pdf`, `/r/a.bin`, detected as
`application/pdf`, is dispatched. -/
theorem walkFn_regular_file_witness :
    syncEvents (walkFn demoWorld { init with mimetypePattern := "pdf" } "/r/a.bin"
        (some (.nondir .regular)) none).trace = [.wgAdd 1, .send "/r/a.bin"] :=
  (walkFn_regular_file demoWorld { init with mimetypePattern := "pdf" } "/r/a.bin"
    (.nondir .regular) none (by decide)).2.2.2.2.1 (by decide) (by decide)

/-- Outside recursive mode and after the root, `walk` on a directory only asks
`walkFn`, which answers `SkipDir`: the directory is not entered. -/
theorem walk_dir_skipped (w : World) (g : Globals) (path : String) (readErr : Option String)
    (kids : Entries) (hrec : g.recursive = false) (htop : g.topLevel = false) :
    walk (walkFn w) g path (.dir readErr kids)
      = { ret := .val (some .skipDir), g := g, trace := [] } := by
  rw [walk]
  simp [walkFn, FileInfo.IsDir, hrec, htop]

/-- Outside recursive mode and after the root, the loop over the names of a
directory classifies the non-directories among them and nothing else. -/
theorem walkEntries_flat (w : World) (path : String) :
    ∀ (kids : Entries) (g : Globals), g.recursive = false → g.topLevel = false →
      kids.sound = true →
      (walkEntries (walkFn w) g path kids).ret = .val none ∧
        (walkEntries (walkFn w) g path kids).g = g ∧
        classified (walkEntries (walkFn w) g path kids).trace = directFiles path kids
  | .nil, g, _, _, _ => by simp [walkEntries, directFiles, classified]
  | .consErr _ _ _, _, _, _, hs => by simp [Entries.sound] at hs
  | .cons name (.file k) rest, g, hr, ht, hs => by
    have hs2 : rest.sound = true := by
      simp [Entries.sound, Entry.sound] at hs
      exact hs
    obtain ⟨i1, i2, i3⟩ := walkEntries_flat w path rest g hr ht hs2
    obtain ⟨h1, h2, h3, _⟩ := walkFn_nondir w g (filepathJoin path name) k none
    rw [walkEntries, walk]
    simp only [h1, Eff.andThen, h2, i1, i2, classified_append, h3, i3, directFiles]
    simp
  | .cons name (.dir readErr sub) rest, g, hr, ht, hs => by
    have hs2 : rest.sound = true := by
      simp [Entries.sound] at hs
      exact hs.2
    obtain ⟨i1, i2, i3⟩ := walkEntries_flat w path rest g hr ht hs2
    rw [walkEntries, walk_dir_skipped w g _ readErr sub hr ht]
    simp [Eff.andThen, Entry.info, FileInfo.IsDir, i1, i2, i3, directFiles, classified]

mutual
/-- In recursive mode `walk` classifies every non-directory at or below an
entry that has no traversal error. -/
theorem walk_deep (w : World) :
    ∀ (e : Entry) (g : Globals) (path : String), g.recursive = true → e.sound = true →
      (walk (walkFn w) g path e).ret = .val none ∧
        (walk (walkFn w) g path e).g = g ∧
        classified (walk (walkFn w) g path e).trace = allFiles path e
  | .file k, g, path, _, _ => by
    obtain ⟨h1, h2, h3, _⟩ := walkFn_nondir w g path k none
    rw [walk, allFiles]
    exact ⟨h1, h2, h3⟩
  | .dir readErr kids, g, path, hr, hs => by
    have hs1 : readErr = none ∧ kids.sound = true := by
      simpa [Entry.sound] using hs
    obtain ⟨hre, hk⟩ := hs1
    subst hre
    obtain ⟨i1, i2, i3⟩ := walkEntries_deep w kids g path hr hk
    rw [walk, allFiles]
    simp [walkFn, FileInfo.IsDir, hr, Eff.andThen, i1, i2, i3]
/-- In recursive mode the loop over the names of a directory classifies every
non-directory below it. -/
theorem walkEntries_deep (w : World) :
    ∀ (kids : Entries) (g : Globals) (path : String), g.recursive = true → kids.sound = true →
      (walkEntries (walkFn w) g path kids).ret = .val none ∧
        (walkEntries (walkFn w) g path kids).g = g ∧
        classified (walkEntries (walkFn w) g path kids).trace = allFilesIn path kids
  | .nil, g, path, _, _ => by simp [walkEntries, allFilesIn, classified]
  | .consErr _ _ _, _, _, _, hs => by simp [Entries.sound] at hs
  | .cons name e rest, g, path, hr, hs => by
    have hs1 : e.sound = true ∧ rest.sound = true := by
      simpa [Entries.sound] using hs
    obtain ⟨h1, h2, h3⟩ := walk_deep w e g (filepathJoin path name) hr hs1.1
    obtain ⟨i1, i2, i3⟩ := walkEntries_deep w rest g path hr hs1.2
    rw [walkEntries, allFilesIn]
    simp only [h1, Eff.andThen, h2, i1, i2, classified_append, h3, i3]
    simp
end

theorem directFiles_plain (path : String) :
    ∀ kids : Entries, kids.plain = true → directFiles path kids = directRegular path kids
  | .nil, _ => rfl
  | .consErr _ _ rest, h => by
    rw [directFiles, directRegular, directFiles_plain path rest (by simpa [Entries.plain] using h)]
  | .cons name (.file k) rest, h => by
    have h1 : k = .regular ∧ rest.plain = true := by
      simpa [Entries.plain, Entry.plain] using h
    obtain ⟨hk, hrest⟩ := h1
    subst hk
    rw [directFiles, directRegular, directFiles_plain path rest hrest]
  | .cons name (.dir _ _) rest, h => by
    have h1 : rest.plain = true := by
      have := h
      simp [Entries.plain] at this
      exact this.2
    rw [directFiles, directRegular, directFiles_plain path rest h1]
    intro hcontra
    cases hcontra

mutual
theorem allFiles_plain :
    ∀ (e : Entry) (path : String), e.plain = true → allFiles path e = allRegular path e
  | .file k, path, h => by
    have hk : k = .regular := by simpa [Entry.plain] using h
    subst hk
    rw [allFiles, allRegular]
  | .dir _ kids, path, h => by
    rw [allFiles, allRegular, allFilesIn_plain kids path (by simpa [Entry.plain] using h)]
theorem allFilesIn_plain :
    ∀ (kids : Entries) (path : String), kids.plain = true →
      allFilesIn path kids = allRegularIn path kids
  | .nil, _, _ => by rw [allFilesIn, allRegularIn]
  | .consErr _ _ rest, path, h => by
    rw [allFilesIn, allRegularIn, allFilesIn_plain rest path (by simpa [Entries.plain] using h)]
  | .cons name e rest, path, h => by
    have h1 : e.plain = true ∧ rest.plain = true := by
      simpa [Entries.plain] using h
    rw [allFilesIn, allRegularIn, allFiles_plain e _ h1.1, allFilesIn_plain rest path h1.2]
end

/-- C6, as amended: for a root directory whose tree is traversed without error,
`filepath.Walk` driven by `walkFn`, with `topLevel` true at the start, returns
nil and classifies, when the recursive flag is unset, exactly the
non-directory entries directly inside the root (the root is entered once,
`topLevel` is false afterwards, and no other directory is descended into) and,
when the flag is set, exactly the non-directory entries anywhere under the
root. `walkFn` only asks `IsDir`: symbolic links and special files are
classified like regular files. In a tree whose non-directories are all regular
files these are exactly the regular files, directly inside the root or
anywhere under it. -/
theorem Walk_classifies (w : World) (g : Globals) (root : String) (kids : Entries)
    (htop : g.topLevel = true) (hroot : w.lstatRoot root = .ok (.dir none kids))
    (hs : kids.sound = true) :
    (Walk w (walkFn w) g root).ret = .val none ∧
      (g.recursive = false →
        classified (Walk w (walkFn w) g root).trace = directFiles root kids ∧
          (Walk w (walkFn w) g root).g.topLevel = false) ∧
      (g.recursive = true →
        classified (Walk w (walkFn w) g root).trace = allFilesIn root kids) ∧
      (kids.plain = true →
        (g.recursive = false →
          classified (Walk w (walkFn w) g root).trace = directRegular root kids) ∧
        (g.recursive = true →
          classified (Walk w (walkFn w) g root).trace = allRegularIn root kids)) := by
  have flat : g.recursive = false →
      (Walk w (walkFn w) g root).ret = .val none ∧
        classified (Walk w (walkFn w) g root).trace = directFiles root kids ∧
        (Walk w (walkFn w) g root).g.topLevel = false := by
    intro hr
    obtain ⟨i1, i2, i3⟩ := walkEntries_flat w root kids { g with topLevel := false } hr rfl hs
    simp only [hr] at i1 i2 i3
    unfold Walk
    simp only [hroot]
    rw [walk]
    simp [walkFn, FileInfo.IsDir, hr, htop, Eff.andThen, i1, i2, i3, classified]
  have deep : g.recursive = true →
      (Walk w (walkFn w) g root).ret = .val none ∧
        classified (Walk w (walkFn w) g root).trace = allFilesIn root kids := by
    intro hr
    obtain ⟨i1, _, i3⟩ := walk_deep w (.dir none kids) g root hr (by simpa [Entry.sound] using hs)
    rw [allFiles] at i3
    unfold Walk
    simp only [hroot, i1, i3, and_self]
  refine ⟨?_, fun hr => (flat hr).2, fun hr => (deep hr).2, fun hp => ⟨?_, ?_⟩⟩
  · cases hr : g.recursive with
    | false => exact (flat hr).1
    | true => exact (deep hr).1
  · intro hr
    rw [(flat hr).2.1, directFiles_plain root kids hp]
  · intro hr
    rw [(deep hr).2, allFilesIn_plain kids root hp]

/-- C6 at the tree of the specification, a root with `a.bin` and a directory `x`
holding `b.bin`: without the recursive flag only `a.bin` is classified, with it
both files are. -/
theorem Walk_classifies_witness :
    classified (Walk demoWorld (walkFn demoWorld) { init with topLevel := true } "/r").trace
        = ["/r/a.bin"] ∧
      classified (Walk demoWorld (walkFn demoWorld)
        { init with topLevel := true, recursive := true } "/r").trace
        = ["/r/a.bin", "/r/x/b.bin"] :=
  ⟨((Walk_classifies demoWorld { init with topLevel := true } "/r"
      (.cons "a.bin" (.file .regular)
        (.cons "x" (.dir none (.cons "b.bin" (.file .regular) .nil)) .nil))
      (by decide) rfl (by decide)).2.1 (by decide)).1,
    (Walk_classifies demoWorld { init with topLevel := true, recursive := true } "/r"
      (.cons "a.bin" (.file .regular)
        (.cons "x" (.dir none (.cons "b.bin" (.file .regular) .nil)) .nil))
      (by decide) rfl (by decide)).2.2.1 (by decide)⟩

/-- C6 as stated fails: in a root holding the regular file `a.bin` and the
symbolic link `s`, the walk classifies both, in either mode, while the only
regular file is `a.bin`. -/
theorem Walk_classifies_symlink :
    symlinkWorld.lstatRoot "/r" = .ok (.dir none symlinkEntries) ∧
      directRegular "/r" symlinkEntries = ["/r/a.bin"] ∧
      allRegularIn "/r" symlinkEntries = ["/r/a.bin"] ∧
      classified (Walk symlinkWorld (walkFn symlinkWorld) { init with topLevel := true } "/r").trace
        = ["/r/a.bin", "/r/s"] ∧
      classified (Walk symlinkWorld (walkFn symlinkWorld)
        { init with topLevel := true, recursive := true } "/r").trace
        = ["/r/a.bin", "/r/s"] :=
  ⟨rfl, by decide, by decide, by decide, by decide⟩

mutual
/-- Whatever the tree, `walk` driven by `walkFn` returns nil, or `SkipDir` for a
directory, or panics: never another error. -/
theorem walk_ret (w : World) :
    ∀ (e : Entry) (g : Globals) (path : String),
      (walk (walkFn w) g path e).ret = .val none ∨
        (e.info.IsDir = true ∧ (walk (walkFn w) g path e).ret = .val (some .skipDir)) ∨
        ∃ m, (walk (walkFn w) g path e).ret = .panic m
  | .file k, g, path => by
    rw [walk]
    exact Or.inl (walkFn_nondir w g path k none).1
  | .dir readErr kids, g, path => by
    have ih1 := walkEntries_ret w kids g path
    have ih2 := walkEntries_ret w kids { g with topLevel := false } path
    rw [walk]
    cases readErr with
    | some e =>
      cases hrec : g.recursive <;> cases htop : g.topLevel <;>
        simp [walkFn, FileInfo.IsDir, hrec, htop, Entry.info]
    | none =>
      cases hrec : g.recursive <;> cases htop : g.topLevel <;>
        simp only [hrec, htop] at ih2 <;>
        simp only [walkFn, FileInfo.IsDir, hrec, htop, if_true, if_false, Option.map_none',
          Option.isSome_none, Option.isSome_some, Bool.or_self, Bool.or_true, Bool.false_eq_true,
          Eff.andThen, Entry.info, true_and]
      · exact Or.inr (Or.inl trivial)
      · rcases ih2 with h | ⟨m, h⟩
        · exact Or.inl h
        · exact Or.inr (Or.inr ⟨m, h⟩)
      · rcases ih1 with h | ⟨m, h⟩
        · exact Or.inl h
        · exact Or.inr (Or.inr ⟨m, h⟩)
      · rcases ih1 with h | ⟨m, h⟩
        · exact Or.inl h
        · exact Or.inr (Or.inr ⟨m, h⟩)
/-- Whatever the entries, the loop of `walk` driven by `walkFn` returns nil or
panics. -/
theorem walkEntries_ret (w : World) :
    ∀ (kids : Entries) (g : Globals) (path : String),
      (walkEntries (walkFn w) g path kids).ret = .val none ∨
        ∃ m, (walkEntries (walkFn w) g path kids).ret = .panic m
  | .nil, g, path => by simp [walkEntries]
  | .consErr name lstatErr rest, g, path => by
    rw [walkEntries]
    simp [walkFn]
  | .cons name e rest, g, path => by
    have ih := walkEntries_ret w rest (walk (walkFn w) g (filepathJoin path name) e).g path
    rw [walkEntries]
    rcases walk_ret w e g (filepathJoin path name) with h | ⟨hd, h⟩ | ⟨m, h⟩
    · simp only [h, Eff.andThen]
      exact ih
    · simp only [h, hd, Eff.andThen]
      simpa using ih
    · simp only [h]
      exact Or.inr ⟨m, rfl⟩
end

/-- Whatever the world, `filepath.Walk` driven by `walkFn` returns nil or panics:
it never returns an error, so the test `err != nil` of line 123 never holds. -/
theorem Walk_ret (w : World) (g : Globals) (root : String) :
    (Walk w (walkFn w) g root).ret = .val none ∨
      ∃ m, (Walk w (walkFn w) g root).ret = .panic m := by
  unfold Walk
  cases hroot : w.lstatRoot root with
  | error e => simp [walkFn]
  | ok entry =>
    simp only []
    rcases walk_ret w entry g root with h | ⟨_, h⟩ | ⟨m, h⟩
    · simp [h]
    · simp [h]
    · simp only [h]
      exact Or.inr ⟨m, rfl⟩

/-- C8 at failing inputs. In recursive mode, with the directory `/r/x`
unreadable, `walkFn` answers nil to the error it is handed: the walk goes on,
`/r/y.bin` is classified and dispatched, `Walk` returns nil and `main` reaches
`wg.Wait()` without logging a walk error. With a name on which `Lstat` fails,
`walkFn` is handed a nil `FileInfo` and panics. In neither run does `main` take
its walk-error branch. -/
theorem main_walk_failure :
    (Walk unreadableWorld (walkFn unreadableWorld)
        { init with topLevel := true, recursive := true } "/r").ret = .val none ∧
      (main unreadableWorld init { dir := "/r", recursive := true }).trace =
        [.log "Running...", .goWorker, .typeByFile "/r/y.bin",
          .log "Adding /r/y.bin (application/pdf)", .wgAdd 1, .send "/r/y.bin", .wgWait] ∧
      (main lstatFailWorld init { dir := "/r", recursive := true }).ret =
        .panicked "invalid memory address or nil pointer dereference" ∧
      (main lstatFailWorld init { dir := "/r", recursive := true }).trace =
        [.log "Running...", .goWorker] := by
  decide

/-! ## Properties of the work counter -/

theorem busy_set (ws : List WState) :
    ∀ (i : Nat) (old new : WState), ws[i]? = some old →
      busy (ws.set i new) + old.load = busy ws + new.load := by
  induction ws with
  | nil => intro i old new h; simp at h
  | cons x xs ih =>
    intro i old new h
    cases i with
    | zero =>
      simp at h
      subst h
      cases x <;> cases new <;> simp [busy, WState.load]
    | succ k =>
      simp at h
      have := ih k old new h
      cases x <;> simp [busy] <;> omega

theorem busy_replicate (n : Nat) : busy (List.replicate n .recv) = 0 := by
  induction n with
  | zero => rfl
  | succ k ih => simp [List.replicate, busy, ih]

theorem inv_start (g : Globals) (n : Nat) (todo : List String) :
    Inv todo.length (Sys.start g n todo) := by
  simp [Inv, Sys.start, busy_replicate, PState.pending]

/-- Every step keeps the invariant. -/
theorem inv_step (w : World) (total : Nat) (s s1 : Sys) (a : Action)
    (hinv : Inv total s) (hstep : step w s a = some s1) : Inv total s1 := by
  obtain ⟨hp, hwg, hadd, hpush, htot⟩ := hinv
  unfold step at hstep
  split at hstep
  · cases hstep
  · cases a with
    | add =>
      simp only [] at hstep
      split at hstep
      · rename_i x rest hprod htodo
        cases hstep
        simp only [Inv, PState.pending] at *
        rw [hprod] at hwg hadd
        rw [htodo] at htot
        simp only [PState.pending, List.length_cons] at hwg hadd htot
        refine ⟨hp, ?_, ?_, hpush, ?_⟩ <;> omega
      · cases hstep
    | handoff i =>
      simp only [] at hstep
      split at hstep
      · rename_i x hprod hw
        cases hstep
        have hb := busy_set s.workers i .recv (.got x) hw
        simp only [WState.load] at hb
        rw [hprod] at hwg hadd
        simp only [Inv, PState.pending] at *
        refine ⟨hp, ?_, ?_, ?_, htot⟩ <;> omega
      · cases hstep
    | copy i =>
      simp only [] at hstep
      split at hstep
      · rename_i x hw
        have hb := busy_set s.workers i (.got x) (.copied x) hw
        simp only [WState.load] at hb
        split at hstep
        · cases hstep
          simp only [Inv]
          refine ⟨hp, ?_, hadd, ?_, htot⟩ <;> omega
        · cases hstep
          exact ⟨hp, hwg, hadd, hpush, htot⟩
      · cases hstep
    | done i =>
      simp only [] at hstep
      split at hstep
      · rename_i x hw
        have hb := busy_set s.workers i (.copied x) .recv hw
        simp only [WState.load] at hb
        split at hstep
        · rename_i hneg
          exfalso
          omega
        · cases hstep
          simp only [Inv]
          refine ⟨hp, ?_, hadd, ?_, htot⟩ <;> omega
      · cases hstep
    | wait =>
      simp only [] at hstep
      split at hstep
      · split at hstep
        · cases hstep
          exact ⟨hp, hwg, hadd, hpush, htot⟩
        · cases hstep
      · cases hstep

/-- Every state a schedule reaches satisfies the invariant. -/
theorem inv_run (w : World) (total : Nat) :
    ∀ (acts : List Action) (s s1 : Sys), Inv total s → run w s acts = some s1 → Inv total s1 := by
  intro acts
  induction acts with
  | nil =>
    intro s s1 hinv h
    simp [run] at h
    subst h
    exact hinv
  | cons a rest ih =>
    intro s s1 hinv h
    simp only [run] at h
    cases hs : step w s a with
    | none => simp [hs] at h
    | some s2 =>
      simp only [hs] at h
      exact ih s2 s1 (inv_step w total s s2 a hinv hs) h

theorem sent_append (a b : List Event) : sent (a ++ b) = sent a ++ sent b := by
  induction a with
  | nil => rfl
  | cons x xs ih => cases x <;> simp [sent, ih]

theorem dispatchLines_append (a b : List String) :
    dispatchLines (a ++ b) = dispatchLines a ++ dispatchLines b := by
  induction a with
  | nil => rfl
  | cons x xs ih => simp [dispatchLines, ih]

theorem paired_append {a b : List Event} (ha : Paired a) (hb : Paired b) : Paired (a ++ b) := by
  unfold Paired at *
  rw [syncEvents_append, sent_append, dispatchLines_append, ha, hb]

theorem paired_dispatchLines (lines : List String) : Paired (dispatchLines lines) := by
  unfold Paired
  induction lines with
  | nil => rfl
  | cons x xs ih => simp [dispatchLines, syncEvents, sent, ih]

theorem walkFn_paired (w : World) (g : Globals) (path : String) (fi : Option FileInfo)
    (err : Option GoError) : Paired (walkFn w g path fi err).trace := by
  unfold walkFn Paired
  cases fi with
  | none => rfl
  | some info =>
    cases info with
    | dir =>
      simp only [FileInfo.IsDir, if_true]
      split
      · rfl
      · split <;> rfl
    | nondir k =>
      simp only [FileInfo.IsDir, Bool.false_eq_true, if_false]
      split
      · rfl
      · split <;> rfl

mutual
theorem walk_paired (w : World) :
    ∀ (e : Entry) (g : Globals) (path : String), Paired (walk (walkFn w) g path e).trace
  | .file k, g, path => by
    rw [walk]
    exact walkFn_paired w g path _ _
  | .dir readErr kids, g, path => by
    have h1 := walkFn_paired w g path (some .dir) (readErr.map .other)
    have ih := fun g1 => walkEntries_paired w kids g1 path
    rw [walk]
    split
    · exact h1
    · split
      · exact h1
      · exact paired_append h1 (ih _)
theorem walkEntries_paired (w : World) :
    ∀ (kids : Entries) (g : Globals) (path : String),
      Paired (walkEntries (walkFn w) g path kids).trace
  | .nil, g, path => by
    rw [walkEntries]
    rfl
  | .consErr name lstatErr rest, g, path => by
    have h1 := walkFn_paired w g (filepathJoin path name) none (some (.other lstatErr))
    have ih := fun g1 => walkEntries_paired w rest g1 path
    rw [walkEntries]
    split
    · exact h1
    · exact paired_append h1 (ih _)
    · split
      · exact h1
      · exact paired_append h1 (ih _)
  | .cons name e rest, g, path => by
    have h1 := walk_paired w e g (filepathJoin path name)
    have ih := fun g1 => walkEntries_paired w rest g1 path
    rw [walkEntries]
    split
    · exact h1
    · exact paired_append h1 (ih _)
    · split
      · exact h1
      · exact paired_append h1 (ih _)
end

theorem Walk_paired (w : World) (g : Globals) (root : String) :
    Paired (Walk w (walkFn w) g root).trace := by
  have h : Paired (match w.lstatRoot root with
      | .error e => walkFn w g root none (some (.other e))
      | .ok entry => walk (walkFn w) g root entry).trace := by
    split
    · exact walkFn_paired w g root _ _
    · exact walk_paired w _ g root
  unfold Walk
  simp only []
  split <;> exact h

/-- Both producers of `main`, the list reader and the walk, increment the
counter right before every send, and touch it at no other time. -/
theorem main_paired (w : World) (g0 : Globals) (args : Flags) :
    Paired (main w g0 args).trace := by
  have hlog : ∀ m, Paired [Event.log m] := fun _ => rfl
  have hwait : Paired [Event.wgWait] := rfl
  have ht0 : ∀ n : Nat, Paired ([Event.log "Running..."] ++ List.replicate n Event.goWorker) := by
    intro n
    apply paired_append (hlog _)
    induction n with
    | zero => rfl
    | succ k ih => exact paired_append (a := [Event.goWorker]) rfl ih
  unfold main
  simp only []
  split
  · exact paired_append (ht0 _) (hlog _)
  · rename_i t1 hlisted
    have ht1 : Paired t1 := by
      split at hlisted
      · split at hlisted
        · cases hlisted
        · cases hlisted
          exact paired_dispatchLines _
      · cases hlisted
        rfl
    split
    · split
      · exact paired_append (paired_append (ht0 _) ht1) (hlog _)
      · split
        · exact paired_append (paired_append (ht0 _) ht1) (Walk_paired w _ _)
        · exact paired_append (paired_append (paired_append (ht0 _) ht1) (Walk_paired w _ _))
            (hlog _)
        · exact paired_append (paired_append (paired_append (ht0 _) ht1) (Walk_paired w _ _))
            hwait
    · exact paired_append (paired_append (ht0 _) ht1) hwait

theorem run_append (w : World) :
    ∀ (a b : List Action) (s : Sys),
      run w s (a ++ b) = (run w s a).bind fun s1 => run w s1 b := by
  intro a
  induction a with
  | nil => intro b s; rfl
  | cons x xs ih =>
    intro b s
    simp only [List.cons_append, run]
    cases step w s x with
    | none => rfl
    | some s1 => exact ih b s1

/-- When every `copySample` returns, the serial schedule carries a system with
an idle producer and an idle worker 0 through all its references and brings
the counter back to where it was. -/
theorem serial_run (w : World) (hret : ∀ g x, (copySample w g x).ret = .returned) :
    ∀ (todo : List String) (wg : Int) (ws : List WState) (g : Globals) (a p d : Nat), 0 ≤ wg →
      ∃ g1, run w
          { wg := wg, todo := todo, prod := .ready, workers := .recv :: ws, g := g,
            exited := false, panicked := false, nAdded := a, nPushed := p, nDone := d }
          (serialSchedule todo) =
        some { wg := wg, todo := [], prod := .ready, workers := .recv :: ws, g := g1,
               exited := false, panicked := false, nAdded := a + todo.length,
               nPushed := p + todo.length, nDone := d + todo.length } := by
  intro todo
  induction todo with
  | nil => intro wg ws g a p d _; exact ⟨g, rfl⟩
  | cons x rest ih =>
    intro wg ws g a p d hwg
    obtain ⟨g1, h1⟩ := ih wg ws (copySample w g x).g (a + 1) (p + 1) (d + 1) hwg
    refine ⟨g1, ?_⟩
    have hneg : ¬ (wg < 0) := by omega
    have hwg1 : wg + 1 - 1 = wg := by omega
    simp only [serialSchedule, run, step, Bool.or_self, Bool.false_eq_true, if_false,
      List.getElem?_cons_zero, hret, List.set_cons_zero, hneg, hwg1, List.length_cons,
      Int.add_sub_cancel, sub_neg]
    rw [h1]
    simp only [Option.some.injEq, Sys.mk.injEq, true_and, and_true]
    omega

/-- With at least one worker and every `copySample` returning, the run can
end: all references are dispatched and processed, the counter is back at
zero, and `wg.Wait()` returns. -/
theorem run_completes (w : World) (hret : ∀ g x, (copySample w g x).ret = .returned)
    (g : Globals) (n : Nat) (todo : List String) (hn : 1 ≤ n) :
    ∃ s, run w (Sys.start g n todo) (serialSchedule todo ++ [.wait]) = some s ∧
      s.exited = true ∧ s.panicked = false ∧ s.wg = 0 ∧ s.todo = [] ∧
      s.nDone = todo.length ∧ busy s.workers = 0 := by
  obtain ⟨k, rfl⟩ : ∃ k, n = k + 1 := ⟨n - 1, by omega⟩
  obtain ⟨g1, h1⟩ := serial_run w hret todo 0 (List.replicate k .recv) g 0 0 0 (le_refl 0)
  refine ⟨Sys.mk 0 [] .ready (.recv :: List.replicate k .recv) g1 true false (0 + todo.length)
    (0 + todo.length) (0 + todo.length), ?_, ?_⟩
  · rw [run_append]
    simp only [Sys.start, List.replicate_succ, h1, Option.bind]
    simp only [run, step, Bool.or_self, Bool.false_eq_true, if_false, if_true]
  · simp [busy, busy_replicate]

/-- C7: in every state the step system reaches from its start, for any number
of workers and any references: no `wg.Done()` has made the counter negative;
the counter equals the number of references dispatched (incremented) minus the
number completed by workers, and is not negative; every push follows its own
increment (pushes never outnumber increments, at most one increment is not yet
pushed); while a pushed reference is unprocessed the counter is positive; and
once as many references are completed as were dispatched, in particular once
all references of the run are processed, the counter is zero. In the code
itself, both producers of `main` increment right before each send. -/
theorem counter_invariant (w : World) (g : Globals) (n : Nat) (todo : List String)
    (acts : List Action) (s : Sys) (hrun : run w (Sys.start g n todo) acts = some s) :
    s.panicked = false ∧
      s.wg = (s.nAdded : Int) - (s.nDone : Int) ∧
      0 ≤ s.wg ∧
      s.nPushed ≤ s.nAdded ∧ s.nAdded ≤ s.nPushed + 1 ∧ s.nDone ≤ s.nPushed ∧
      busy s.workers = s.nPushed - s.nDone ∧
      (s.nDone < s.nPushed → 0 < s.wg) ∧
      (s.nDone = s.nAdded → s.wg = 0) ∧
      (s.todo = [] → s.nDone = todo.length → s.wg = 0) ∧
      ∀ g0 args, Paired (main w g0 args).trace := by
  obtain ⟨hp, hwg, hadd, hpush, htot⟩ :=
    inv_run w todo.length acts (Sys.start g n todo) s (inv_start g n todo) hrun
  have hpend : s.prod.pending ≤ 1 := by
    cases s.prod <;> simp [PState.pending]
  refine ⟨hp, ?_, ?_, ?_, ?_, ?_, ?_, ?_, ?_, ?_, fun g0 args => main_paired w g0 args⟩
  · omega
  · omega
  · omega
  · omega
  · omega
  · omega
  · intro h
    omega
  · intro h
    omega
  · intro h1 h2
    rw [h1] at htot
    simp only [List.length_nil] at htot
    omega

/-- C7 at a concrete run: two workers, the references `/s/a.bin` and `ID1`; after
both are dispatched and the first is done, the counter is 1 = 2 - 1. -/
theorem counter_invariant_witness :
    demoState.wg = (demoState.nAdded : Int) - (demoState.nDone : Int) ∧ 0 < demoState.wg :=
  ⟨(counter_invariant demoWorld demoGlobals 2 ["/s/a.bin", "ID1"]
      [.add, .handoff 0, .add, .handoff 1, .copy 0, .done 0] demoState (by decide)).2.1,
    (counter_invariant demoWorld demoGlobals 2 ["/s/a.bin", "ID1"]
      [.add, .handoff 0, .add, .handoff 1, .copy 0, .done 0] demoState (by decide)).2.2.2.2.2.2.2.1
      (by decide)⟩

/-! ## Properties of the shared client under concurrent calls -/

theorem set_lookup {α : Type} (l : List α) (i j : Nat) (a b : α)
    (h : (l.set i a)[j]? = some b) : (j = i ∧ b = a) ∨ (j ≠ i ∧ l[j]? = some b) := by
  rw [List.getElem?_set] at h
  by_cases hij : i = j
  · subst hij
    by_cases hlt : i < l.length
    · simp [hlt] at h
      exact Or.inl ⟨rfl, h.symm⟩
    · simp [hlt] at h
  · simp [hij] at h
    exact Or.inr ⟨fun hji => hij hji.symm, h⟩

theorem client_of_flag (b : Bool) :
    ({ transport := if b = true then { InsecureSkipVerify := true } else {} } : Client)
      = { transport := { InsecureSkipVerify := b } } := by
  cases b <;> rfl

theorem cinv_start (g : Globals) (inboxes : List (List String)) :
    CInv g (CSys.start g inboxes) := by
  refine ⟨rfl, fun _ => rfl, ?_, ?_, ?_⟩
  · intro o h
    simp [CSys.start] at h
  · intro i k wk h
    simp [CSys.start] at h
  · intro r hr
    simp [CSys.start] at hr

/-- Every piece of every worker keeps the invariant. -/
theorem cinv_step (w : World) (g0 : Globals) (s s1 : CSys) (a : CAction)
    (hinv : CInv g0 s) (hstep : cstep w s a = some s1) : CInv g0 s1 := by
  obtain ⟨hg, hnone, hsome, hW, hlog⟩ := hinv
  unfold cstep at hstep
  split at hstep
  · cases hstep
  · cases a with
    | recv i =>
      simp only [] at hstep
      split at hstep
      · rename_i x rest c hw
        cases hstep
        refine ⟨hg, hnone, hsome, ?_, hlog⟩
        intro j k wk hwr hget
        rcases set_lookup _ _ _ _ _ hget with ⟨hj, hwk⟩ | ⟨_, hold⟩
        · subst hj
          subst hwk
          have := (hW j k _ hwr hw).1
          simp only at this ⊢
          exact ⟨by omega, fun h => by omega⟩
        · exact hW j k wk hwr hold
      · cases hstep
    | build i =>
      simp only [] at hstep
      split at hstep
      · rename_i inbox c x hw
        have hrec : ∀ t, (∀ p ∈ gets t, p.1 = s.g.client) → ∀ r ∈ s.getLog ++ getRecords i c s.writer t,
            r.origin ≠ some (r.worker, r.call) ∧
              (r.origin = none → r.cl = g0.client) ∧
              (∀ o, r.origin = some o →
                r.cl = { transport := { InsecureSkipVerify := g0.insecure } }) := by
          intro t ht r hr
          rcases List.mem_append.1 hr with hr | hr
          · exact hlog r hr
          · simp only [getRecords, List.mem_map] at hr
            obtain ⟨p, hp, rfl⟩ := hr
            refine ⟨?_, ?_, ?_⟩
            · intro h
              have := (hW i c _ h hw).2 rfl
              simp [CState.beforeStore] at this
            · intro h
              simp only at h ⊢
              rw [ht p hp]
              exact hnone h
            · intro o h
              simp only at h ⊢
              rw [ht p hp]
              exact hsome o h
        split at hstep
        · rename_i e t hb
          cases hstep
          refine ⟨hg, hnone, hsome, hW, hrec t ?_⟩
          have := buildRequest_gets w s.g (s.g.holmesStorage ++ "/samples/")
            [("user_id", s.g.userid), ("source", s.g.source), ("name", filepathBase x),
              ("date", w.now), ("comment", s.g.comment)] x
          rw [hb] at this
          exact this
        · rename_i request t hb
          cases hstep
          refine ⟨hg, hnone, hsome, ?_, hrec t ?_⟩
          · intro j k wk hwr hget
            rcases set_lookup _ _ _ _ _ hget with ⟨hj, hwk⟩ | ⟨_, hold⟩
            · subst hj
              subst hwk
              have h1 := hW j k _ hwr hw
              simp only [CState.beforeStore] at h1 ⊢
              refine ⟨h1.1, fun h => ?_⟩
              have := h1.2 h
              simp at this
            · exact hW j k wk hwr hold
          · have := buildRequest_gets w s.g (s.g.holmesStorage ++ "/samples/")
              [("user_id", s.g.userid), ("source", s.g.source), ("name", filepathBase x),
                ("date", w.now), ("comment", s.g.comment)] x
            rw [hb] at this
            exact this
      · cases hstep
    | store i =>
      simp only [] at hstep
      split at hstep
      · rename_i inbox c x request hw
        cases hstep
        have hins : s.g.insecure = g0.insecure := by rw [hg]
        refine ⟨?_, ?_, ?_, ?_, hlog⟩
        · simp only []
          rw [hg]
        · intro h
          cases h
        · intro o _
          simp only []
          rw [client_of_flag, hins]
        · intro j k wk hwr hget
          simp only [Option.some.injEq, Prod.mk.injEq] at hwr
          obtain ⟨hj, hk⟩ := hwr
          subst hj
          subst hk
          rcases set_lookup _ _ _ _ _ hget with ⟨_, hwk⟩ | ⟨hne, _⟩
          · subst hwk
            exact ⟨le_refl _, fun _ => rfl⟩
          · exact absurd rfl hne
      · cases hstep
    | send i =>
      simp only [] at hstep
      split at hstep
      · rename_i inbox c x request hw
        split at hstep
        · cases hstep
          exact ⟨hg, hnone, hsome, hW, hlog⟩
        · split at hstep
          · cases hstep
            exact ⟨hg, hnone, hsome, hW, hlog⟩
          · cases hstep
            refine ⟨hg, hnone, hsome, ?_, hlog⟩
            intro j k wk hwr hget
            rcases set_lookup _ _ _ _ _ hget with ⟨hj, hwk⟩ | ⟨_, hold⟩
            · subst hj
              subst hwk
              have h1 := hW j k _ hwr hw
              exact ⟨h1.1, fun _ => rfl⟩
            · exact hW j k wk hwr hold
      · cases hstep

/-- Every state a schedule of the concurrent system reaches satisfies the
invariant. -/
theorem cinv_run (w : World) (g0 : Globals) :
    ∀ (acts : List CAction) (s s1 : CSys), CInv g0 s → crun w s acts = some s1 → CInv g0 s1 := by
  intro acts
  induction acts with
  | nil =>
    intro s s1 hinv h
    simp [crun] at h
    subst h
    exact hinv
  | cons a rest ih =>
    intro s s1 hinv h
    simp only [crun] at h
    cases hs : cstep w s a with
    | none => simp [hs] at h
    | some s2 =>
      simp only [hs] at h
      exact ih s2 s1 (cinv_step w g0 s s2 a hinv hs) h

/-- The three pieces of a call, run in a row with nothing in between, are the
call: when `copySample` returns, they leave the package variables it leaves and
log the GETs of its trace. -/
theorem crun_copySample (w : World) (s : CSys) (i k : Nat) (inbox : List String) (x : String)
    (hex : s.exited = false)
    (hw : s.workers[i]? = some { inbox := inbox, call := k, st := .got x })
    (hret : (copySample w s.g x).ret = .returned) :
    crun w s [.build i, .store i, .send i] =
      some { g := (copySample w s.g x).g
             writer := some (i, k)
             workers := s.workers.set i { inbox := inbox, call := k, st := .recv }
             getLog := s.getLog ++ getRecords i k s.writer (copySample w s.g x).trace
             exited := false } := by
  have hlt : i < s.workers.length := by
    obtain ⟨h, _⟩ := List.getElem?_eq_some.1 hw
    exact h
  have hget : ∀ a : CWorker, (s.workers.set i a)[i]? = some a :=
    fun _ => List.getElem?_set_self hlt
  unfold copySample at hret ⊢
  simp only [crun, cstep, hex, hw, Bool.false_eq_true, if_false] at hret ⊢
  generalize buildRequest w s.g (s.g.holmesStorage ++ "/samples/")
    [("user_id", s.g.userid), ("source", s.g.source), ("name", filepathBase x),
      ("date", w.now), ("comment", s.g.comment)] x = br at hret ⊢
  obtain ⟨res, t⟩ := br
  cases res with
  | error e => simp at hret
  | ok request =>
    simp only [hget, List.set_set] at hret ⊢
    cases hdo : w.httpDo
        { transport := if s.g.insecure = true then { InsecureSkipVerify := true } else {} }
        request with
    | error e => simp [hdo] at hret
    | ok resp =>
      cases herr : resp.Body.err with
      | some e => simp [hdo, herr] at hret
      | none =>
        simp [hdo, herr, hget, getRecords, gets_append, gets]

/-- C10, as amended: every GET issued during a call of `copySample` is sent with
the process-wide client that `buildRequest` finds at line 219, the client of
the start or one stored at line 184 by another call, never with the client the
call itself configures, because the call stores its client only after
`buildRequest` has returned. For the call taken alone, and so in a run with one
worker, that is the client as it stood before the call. With several workers,
in every state any interleaving reaches, every GET was sent with the client of
the start when no call had run line 184 yet, and otherwise with the client
line 184 builds, last stored by a call other than the one that sends the GET
(an earlier call of the same worker, or a call of another worker, which may
have stored it while the sending call was under way). And when the first
reference a worker processes is not local and decodes, in a run whose client
is still the one of `init`, its GET is sent by that client, whose transport
validates certificates, whatever the insecure flag says. -/
theorem copySample_get_client (w : World) (g : Globals) (name : String) :
    (∀ p ∈ gets (copySample w g name).trace, p.1 = g.client) ∧
      (∀ rest e cId, g.client = init.client → w.osOpen name = .error e →
        w.bsonUnmarshal name = .ok cId →
        (gets (worker w g (name :: rest)).trace).head?
            = some (init.client, g.critsFileServer ++ "/" ++ Hex cId.Id) ∧
          init.client.transport.InsecureSkipVerify = false) ∧
      ∀ inboxes acts s, crun w (CSys.start g inboxes) acts = some s →
        ∀ r ∈ s.getLog,
          r.origin ≠ some (r.worker, r.call) ∧
            (r.origin = none → r.cl = g.client) ∧
            (∀ o, r.origin = some o →
              r.cl = { transport := { InsecureSkipVerify := g.insecure } }) := by
  refine ⟨?_, ?_, ?_⟩
  · obtain ⟨more, htrace, hmore⟩ := copySample_trace w g name
    rw [htrace, gets_append, hmore, List.append_nil]
    exact buildRequest_gets w g _ _ name
  · intro rest e cId hcl hopen hdec
    refine ⟨?_, rfl⟩
    obtain ⟨more1, h1⟩ := worker_trace_cons w g name rest
    obtain ⟨more2, h2, _⟩ := copySample_trace w g name
    rw [h1, h2, buildRequest_trace, resolveReader_trace, hopen, ← hcl]
    simp only [hdec]
    cases hget : w.httpGet g.client (g.critsFileServer ++ "/" ++ Hex cId.Id) <;>
      simp [gets]
  · intro inboxes acts s hrun
    exact (cinv_run w g acts (CSys.start g inboxes) s (cinv_start g inboxes) hrun).2.2.2.2

/-- C10 at concrete inputs. Started with the insecure flag, the first reference
`ID1` of a one-worker run is fetched by the client of `init`. With two workers,
worker 0 enters its call for `ID1`, worker 1 then runs its whole call for
`/s/a.bin`, and worker 0 then runs `buildRequest`: its GET goes out with the
client stored by that call of worker 1, which began after its own. -/
theorem copySample_get_client_witness :
    ((gets (worker demoWorld demoGlobals ["ID1", "/s/a.bin"]).trace).head?
        = some (init.client, demoGlobals.critsFileServer ++ "/" ++ Hex [1, 2, 171]) ∧
      init.client.transport.InsecureSkipVerify = false) ∧
      raceState.getLog =
        [{ worker := 0, call := 1, cl := { transport := { InsecureSkipVerify := true } },
           url := "http://cfs/0102ab", origin := some (1, 1) }] ∧
      ∀ r ∈ raceState.getLog,
        r.origin ≠ some (r.worker, r.call) ∧
          (r.origin = none → r.cl = demoGlobals.client) ∧
          (∀ o, r.origin = some o →
            r.cl = { transport := { InsecureSkipVerify := demoGlobals.insecure } }) :=
  ⟨(copySample_get_client demoWorld demoGlobals "ID1").2.1 ["/s/a.bin"] "no such file"
      ⟨[1, 2, 171], ""⟩ (by decide) (by decide) (by decide),
    rfl,
    (copySample_get_client demoWorld demoGlobals "ID1").2.2 [["ID1"], ["/s/a.bin"]]
      [.recv 0, .recv 1, .build 1, .store 1, .send 1, .build 0] raceState (by decide)⟩

end Holmes
